import Mathlib

/-!
# Verification of the metadata-governed virtual file system (`src/main.py`)

Shallow embedding of `FileSystemManager`: the in-memory metadata (directory
structure, file table, block allocator, read cache) together with the parts of
the outside world the engine touches (physical file contents, the backup
directory, the durable metadata store) are collected in one state record
`FSState`, and every operation of the class becomes a pure function from
states to (result, state) pairs, translated clause by clause from the source.

Modelling conventions, stated once here:
* Python dicts become association lists (`aget`/`aset`/`adel`); `aset` keeps
  insertion order (replace in place, append when new) like a Python dict.
* The MD5 digest is modelled by the injective encoding `md5 s = "#" ++ s`;
  the code only ever compares digests for equality, and `_calculate_checksum`
  returns `""` on a read failure, which `md5` never returns.
* Physical files are keyed directly by their normalized virtual path: the code
  maps a virtual path `p` to `os.path.join(root_dir, p.lstrip('/'))`, an
  injective translation, so the root prefix is dropped.
* Wall-clock time is a `clock : Nat` field read by `time.time()` /
  `datetime.now()`; it does not advance by itself.
* `persistFault : Bool` models the environment raising an exception inside the
  body of `_save_metadata` (which the code catches and swallows, line 108);
  when set, the durable store and its backups are left untouched.
* Exceptions caught by the `try/except` wrappers of the source become the
  corresponding early `(false, s)` / `(none, s)` returns; OS-level faults
  other than the modelled save fault are not modelled.
* The two unbounded recursions (`create_directory` ancestor creation and
  `delete_directory` recursive deletion) are written with an explicit fuel
  that is large enough for every terminating run; running out of fuel returns
  `False`, which matches Python's `RecursionError` being caught by the
  surrounding `except` on the non-terminating inputs.
-/

/-- Association-list lookup (Python `d[k]` / `k in d`), first match wins. -/
def aget {α : Type} (k : String) : List (String × α) → Option α
  | [] => none
  | (k', v) :: t => if k' = k then some v else aget k t

/-- Association-list store (Python `d[k] = v`): replace in place if the key is
present, append otherwise — this preserves dict insertion order. -/
def aset {α : Type} (k : String) (v : α) : List (String × α) → List (String × α)
  | [] => [(k, v)]
  | (k', v') :: t => if k' = k then (k, v) :: t else (k', v') :: aset k v t

/-- Association-list delete (Python `del d[k]`). -/
def adel {α : Type} (k : String) (l : List (String × α)) : List (String × α) :=
  l.filter (fun e => e.1 != k)

/-- `str.replace('\\', '/')` — single-character replace is a character map. -/
def replBack (s : String) : String :=
  ⟨s.data.map (fun c => if c = '\\' then '/' else c)⟩

/-- Path normalization shared by `create_file`, `read_file`, `write_file`,
`delete_file`, `create_directory`, `delete_directory` (e.g. lines 290-293):
backslashes to slashes, then force a leading slash.  No trailing-slash strip. -/
def norm1 (s : String) : String :=
  let q := replBack s
  if q.data.head? = some '/' then q else "/" ++ q

/-- The extra normalization only `list_directory` performs (lines 642-646):
additionally strip one trailing slash unless the path is the root. -/
def norm2 (s : String) : String :=
  let q := norm1 s
  if q ≠ "/" ∧ q.data.getLast? = some '/' then ⟨q.data.dropLast⟩ else q

/-- Split a character list at the last `'/'`: returns Python's
`(p[:i], p[i:])` for `i = p.rfind('/') + 1`. -/
def rsplitSlash (cs : List Char) : List Char × List Char :=
  let r := cs.reverse
  ((r.dropWhile (fun c => c ≠ '/')).reverse, (r.takeWhile (fun c => c ≠ '/')).reverse)

/-- POSIX `os.path.dirname`: head of the split, right-stripped of slashes
unless it is empty or consists only of slashes. -/
def dirname (p : String) : String :=
  let h := (rsplitSlash p.data).1
  if h.isEmpty then ⟨h⟩
  else if h.all (fun c => c = '/') then ⟨h⟩
  else ⟨(h.reverse.dropWhile (fun c => c = '/')).reverse⟩

/-- POSIX `os.path.basename`: tail of the split. -/
def basename (p : String) : String := ⟨(rsplitSlash p.data).2⟩

/-- `os.path.join(p, n)` for the shapes the code uses (child names without a
leading slash, under an absolute parent). -/
def pyJoin (p n : String) : String :=
  if n.data.head? = some '/' then n
  else if p = "" then n
  else if p.data.getLast? = some '/' then p ++ n
  else p ++ "/" ++ n

/-- `path.lstrip('/')`. -/
def lstripSlash (p : String) : String := ⟨p.data.dropWhile (fun c => c = '/')⟩

/-- `rel.replace('/', '_')`. -/
def flattenSlash (s : String) : String :=
  ⟨s.data.map (fun c => if c = '/' then '_' else c)⟩

/-- `n.startswith(pre)`. -/
def hasPref (pre n : String) : Bool := n.data.take pre.data.length == pre.data

/-- The MD5 hex digest, modelled as an injective encoding (see header note). -/
def md5 (s : String) : String := "#" ++ s

/-- `max(l)` if `l` else `0` (line 237). -/
def pyMax (l : List Nat) : Nat :=
  match l with
  | [] => 0
  | _ => l.foldl max 0

/-- One step of a stable insertion: place `a` before the first element it
compares `le` to. -/
def insertLe {α : Type} (le : α → α → Bool) (a : α) : List α → List α
  | [] => [a]
  | b :: t => if le a b then a :: b :: t else b :: insertLe le a t

/-- Python's `sorted`/`list.sort`: a stable ascending sort.  A stable sort's
output is uniquely determined by the comparator, so this structural insertion
sort coincides with whatever stable algorithm the runtime uses (Timsort); it
is written structurally so the kernel can evaluate it. -/
def pySort {α : Type} (le : α → α → Bool) : List α → List α
  | [] => []
  | a :: t => insertLe le a (pySort le t)

/-- Lexicographic comparison of character lists by code point — exactly how
Python compares strings. -/
def charListLe : List Char → List Char → Bool
  | [], _ => true
  | _ :: _, [] => false
  | a :: as, b :: bs => if a < b then true else if b < a then false else charListLe as bs

/-- Python's `s <= t` on strings: code-point lexicographic order. -/
def strLe (a b : String) : Bool := charListLe a.data b.data

/-- Tagged child reference stored in a directory's `contents` dict:
`{'type': 'file', 'file_id': …}` or `{'type': 'directory', 'path': …}`. -/
inductive ChildRef : Type
  | file (file_id : String)
  | dir (path : String)
deriving DecidableEq, Repr

/-- A `directory_structure` entry (timestamps are clock readings). -/
structure DirEntry : Type where
  created : Nat
  modified : Nat
  contents : List (String × ChildRef)
deriving DecidableEq, Repr

/-- A `file_table` entry. -/
structure FileRec : Type where
  path : String
  size : Nat
  blocks : List Nat
  created : Nat
  modified : Nat
  checksum : String
deriving DecidableEq, Repr

/-- The fields `_save_metadata` serializes (lines 101-107). -/
structure MetaSnapshot : Type where
  block_size : Nat
  free_blocks : List Nat
  file_table : List (String × FileRec)
  directory_structure : List (String × DirEntry)
  last_updated : Nat
deriving DecidableEq, Repr

/-- Bytes of a durable metadata file: either a well-formed serialization or
unparseable garbage (as written by `simulate_disk_crash("metadata")`). -/
inductive MetaJson : Type
  | valid (d : MetaSnapshot)
  | invalid
deriving DecidableEq, Repr

/-- `json.load` on a metadata file: succeeds exactly on well-formed bytes. -/
def parseMeta : MetaJson → Option MetaSnapshot
  | .valid d => some d
  | .invalid => none

/-- The whole world of one `FileSystemManager`: its in-memory fields plus the
physical tree, the `.backups` directory (per-file backups and metadata
snapshots kept separately; their name families never collide in the claims
under study) and the durable metadata file. -/
structure FSState : Type where
  block_size : Nat
  free_blocks : List Nat
  file_table : List (String × FileRec)
  directory_structure : List (String × DirEntry)
  read_cache : List (String × String)
  cache_timestamps : List (String × Nat)
  cache_max_size : Nat
  cache_ttl : Nat
  physical : List (String × String)
  backups : List (String × String)
  metaBackups : List (String × MetaJson)
  durable : Option MetaJson
  persistFault : Bool
  clock : Nat
deriving DecidableEq, Repr

/-- `_calculate_checksum` (lines 255-275): digest of the physical content, or
`""` when the file cannot be read. -/
def calculate_checksum (phys : List (String × String)) (p : String) : String :=
  match aget p phys with
  | some c => md5 c
  | none => ""

/-- `_check_cache_expiration` (lines 43-54): drop every entry older than the
TTL from both the cache and the timestamp table. -/
def check_cache_expiration (s : FSState) : FSState :=
  let expired := (s.cache_timestamps.filter
    (fun e => decide (s.cache_ttl < s.clock - e.2))).map (fun e => e.1)
  { s with
    read_cache := s.read_cache.filter (fun e => !(expired.contains e.1)),
    cache_timestamps := s.cache_timestamps.filter (fun e => !(expired.contains e.1)) }

/-- First entry with minimal value — Python's
`min(d, key=d.get)` over insertion order. -/
def minByVal : List (String × Nat) → Option (String × Nat)
  | [] => none
  | e :: t => some (t.foldl (fun best x => if x.2 < best.2 then x else best) e)

/-- `_add_to_cache` (lines 56-68): evict the oldest entry when at capacity,
then store the content with the current timestamp. -/
def add_to_cache (p c : String) (s : FSState) : FSState :=
  let s :=
    if s.cache_max_size ≤ s.read_cache.length then
      match minByVal s.cache_timestamps with
      | some om =>
          { s with read_cache := adel om.1 s.read_cache,
                   cache_timestamps := adel om.1 s.cache_timestamps }
      | none => s
    else s
  { s with read_cache := aset p c s.read_cache,
           cache_timestamps := aset p s.clock s.cache_timestamps }

/-- `_invalidate_cache(path)` for a specific path (lines 481-497): normalize
and remove the cache entry (the timestamp entry is left behind, as in the
source). -/
def invalidate_cache (p : String) (s : FSState) : FSState :=
  { s with read_cache := adel (norm1 p) s.read_cache }

/-- `_allocate_blocks` (lines 225-244): if the free pool is short, extend it
with `num_blocks` fresh identifiers just above the pool's own maximum, then
hand out the first `num_blocks` pool entries. -/
def allocate_blocks (n : Nat) (s : FSState) : List Nat × FSState :=
  let s :=
    if s.free_blocks.length < n then
      { s with free_blocks := s.free_blocks ++ List.range' (pyMax s.free_blocks + 1) n }
    else s
  (s.free_blocks.take n, { s with free_blocks := s.free_blocks.drop n })

/-- `_free_blocks` (lines 246-253): append to the pool, no validation. -/
def release_blocks (blocks : List Nat) (s : FSState) : FSState :=
  { s with free_blocks := s.free_blocks ++ blocks }

/-- Name of the timestamped metadata snapshot copy (line 95). -/
def metaBackupName (s : FSState) : String := "metadata_backup_" ++ toString s.clock

/-- `_save_metadata` (lines 88-109): back up the previous durable file, then
write the current state; any failure is swallowed (here: `persistFault` makes
the whole body a no-op, the caller never sees it). -/
def save_metadata (s : FSState) : FSState :=
  if s.persistFault then s
  else
    let s :=
      match s.durable with
      | some prev => { s with metaBackups := aset (metaBackupName s) prev s.metaBackups }
      | none => s
    { s with durable := some (.valid
        ⟨s.block_size, s.free_blocks, s.file_table, s.directory_structure, s.clock⟩) }

/-- `_initialize_file_system` (lines 111-128): 1000 free blocks, a root-only
directory tree, an empty file table, then save. -/
def init_file_system (s : FSState) : FSState :=
  save_metadata
    { s with
      free_blocks := List.range' 1 1000,
      directory_structure := [("/", ⟨s.clock, s.clock, []⟩)],
      file_table := [] }

/-- A manager constructed on an empty directory: `__init__` (lines 14-41) with
nothing on disk, so `_load_metadata` initializes a fresh file system. -/
def initState : FSState :=
  init_file_system
    { block_size := 4096, free_blocks := [], file_table := [],
      directory_structure := [], read_cache := [], cache_timestamps := [],
      cache_max_size := 100, cache_ttl := 300, physical := [], backups := [],
      metaBackups := [], durable := none, persistFault := false, clock := 0 }

/-- Backup file name for virtual path `p` (lines 778-780):
`relpath.replace('/','_') + '_' + timestamp`. -/
def backupName (p : String) (s : FSState) : String :=
  flattenSlash (lstripSlash p) ++ "_" ++ toString s.clock

/-- The per-file backup name stem `_recover_file` filters on (line 810). -/
def backupStem (p : String) : String := flattenSlash (lstripSlash p) ++ "_"

/-- `_backup_file` (lines 763-790): copy the current physical content into the
backup directory under a timestamped name; `False` if the file is absent. -/
def backup_file (p : String) (s : FSState) : Bool × FSState :=
  match aget p s.physical with
  | none => (false, s)
  | some c => (true, { s with backups := aset (backupName p s) c s.backups })

/-- `_recover_file` (lines 792-838): list the per-file backups matching the
derived name stem, newest first, and restore the first whose checksum equals
the stored checksum; `False` (content untouched) when none matches. -/
def recover_file (fid : String) (p : String) (s : FSState) : Bool × FSState :=
  match aget fid s.file_table with
  | none => (false, s)
  | some fr =>
    let names := (s.backups.filter (fun e => hasPref (backupStem p) e.1)).map (fun e => e.1)
    if names.isEmpty then (false, s)
    else
      let sorted := (pySort strLe names).reverse
      match sorted.find? (fun n => calculate_checksum s.backups n == fr.checksum) with
      | some n =>
          match aget n s.backups with
          | some c => (true, { s with physical := aset p c s.physical })
          | none => (false, s)
      | none => (false, s)

/-- `create_file` (lines 278-341). -/
def create_file (s : FSState) (path content : String) : Bool × FSState :=
  let p := norm1 path
  match aget (dirname p) s.directory_structure with
  | none => (false, s)
  | some pd =>
    match aget (basename p) pd.contents with
    | some _ => (false, s)
    | none =>
      let s := { s with physical := aset p content s.physical }
      let size := content.utf8ByteSize
      let nb := (size + s.block_size - 1) / s.block_size
      let als := allocate_blocks nb s
      let s := als.2
      let fid := md5 p
      let newRec : FileRec :=
        ⟨p, size, als.1, s.clock, s.clock, calculate_checksum s.physical p⟩
      let s := { s with file_table := aset fid newRec s.file_table }
      let pd' := { pd with contents := aset (basename p) (.file fid) pd.contents }
      let s := { s with directory_structure := aset (dirname p) pd' s.directory_structure }
      (true, save_metadata s)

/-- `read_file` (lines 343-404): cache lookup after expiry, resolution through
the directory structure, checksum verification with recovery on mismatch, then
the (possibly recovered) physical read, which also repopulates the cache. -/
def read_file (s : FSState) (path : String) : Option String × FSState :=
  let p := norm1 path
  let s := check_cache_expiration s
  match aget p s.read_cache with
  | some c => (some c, s)
  | none =>
    match aget (dirname p) s.directory_structure with
    | none => (none, s)
    | some pd =>
      match aget (basename p) pd.contents with
      | none => (none, s)
      | some (.dir _) => (none, s)
      | some (.file fid) =>
        match aget fid s.file_table with
        | none => (none, s)
        | some fr =>
          let s :=
            if calculate_checksum s.physical p ≠ fr.checksum then (recover_file fid p s).2
            else s
          match aget p s.physical with
          | none => (none, s)
          | some content => (some content, add_to_cache p content s)

/-- `create_directory` body (lines 576-628), with explicit recursion fuel for
the recursive ancestor creation; exhausted fuel returns `False` exactly where
Python's unbounded recursion would die with a caught `RecursionError`. -/
def create_directory_go : Nat → FSState → String → Bool × FSState
  | 0, s, _ => (false, s)
  | fuel + 1, s, path =>
    let p := norm1 path
    if (aget p s.directory_structure).isSome then (false, s)
    else
      let parent := dirname p
      let recRes :=
        if parent ≠ "" ∧ (aget parent s.directory_structure).isNone then
          create_directory_go fuel s parent
        else (true, s)
      if recRes.1 = false then (false, recRes.2)
      else
        let s := recRes.2
        let newDir : DirEntry := ⟨s.clock, s.clock, []⟩
        let s := { s with directory_structure := aset p newDir s.directory_structure }
        if p ≠ "/" then
          match aget parent s.directory_structure with
          | some pe =>
              let pe' := { pe with contents := aset (basename p) (.dir p) pe.contents }
              let s := { s with directory_structure := aset parent pe' s.directory_structure }
              (true, save_metadata s)
          | none => (false, s)
        else (true, save_metadata s)

/-- `create_directory` (lines 576-628); the fuel bound, one unit per path
character, dominates the ancestor chain length of every terminating run. -/
def create_directory (s : FSState) (path : String) : Bool × FSState :=
  create_directory_go ((norm1 path).data.length + 1) s path

/-- `write_file` (lines 406-478): invalidate the cache entry, create a missing
parent directory, then either rewrite an existing file in place (free old
blocks, back up, write, allocate, update the record, repopulate the cache) or
delegate to `create_file`. -/
def write_file (s : FSState) (path content : String) : Bool × FSState :=
  let p := norm1 path
  let s := invalidate_cache p s
  let s :=
    if (aget (dirname p) s.directory_structure).isNone then
      (create_directory s (dirname p)).2
    else s
  match aget (dirname p) s.directory_structure with
  | none => (false, s)
  | some pd =>
    match aget (basename p) pd.contents with
    | none => create_file s p content
    | some (.dir _) => (false, s)
    | some (.file fid) =>
      match aget fid s.file_table with
      | none => (false, s)
      | some fr =>
        let s := release_blocks fr.blocks s
        let s := (backup_file p s).2
        let s := { s with physical := aset p content s.physical }
        let size := content.utf8ByteSize
        let nb := (size + s.block_size - 1) / s.block_size
        let als := allocate_blocks nb s
        let s := als.2
        let ck := calculate_checksum s.physical p
        let fr' := { fr with size := size, blocks := als.1, modified := s.clock, checksum := ck }
        let s := { s with file_table := aset fid fr' s.file_table }
        let s := add_to_cache p content s
        (true, save_metadata s)

/-- `delete_file` (lines 518-573): back up, release blocks, drop the record
and the directory linkage and the physical file, save.  (Note: no cache
invalidation appears anywhere in this method.) -/
def delete_file (s : FSState) (path : String) : Bool × FSState :=
  let p := norm1 path
  match aget (dirname p) s.directory_structure with
  | none => (false, s)
  | some pd =>
    match aget (basename p) pd.contents with
    | none => (false, s)
    | some (.dir _) => (false, s)
    | some (.file fid) =>
      let s := (backup_file p s).2
      match aget fid s.file_table with
      | none => (false, s)
      | some fr =>
        let s := release_blocks fr.blocks s
        let s := { s with file_table := adel fid s.file_table }
        let pd' := { pd with contents := adel (basename p) pd.contents }
        let s := { s with directory_structure := aset (dirname p) pd' s.directory_structure }
        let s := { s with physical := adel p s.physical }
        (true, save_metadata s)

/-- Shallow projection of one child for a directory listing. -/
inductive ChildInfo : Type
  | file (size created modified : Nat)
  | dir (created modified item_count : Nat)
deriving DecidableEq, Repr

/-- The result dictionary of `list_directory` (lines 658-687). -/
structure Listing : Type where
  name : String
  path : String
  created : Nat
  modified : Nat
  contents : List (String × ChildInfo)
deriving DecidableEq, Repr

/-- `list_directory` (lines 630-691); a dangling child reference raises a
`KeyError` in the source, so the whole listing becomes `None`. -/
def list_directory (s : FSState) (path : String) : Option Listing :=
  let p := norm2 path
  match aget p s.directory_structure with
  | none => none
  | some d =>
    let items := d.contents.foldl
      (fun acc ne =>
        match acc with
        | none => none
        | some l =>
          match ne.2 with
          | ChildRef.file fid =>
            match aget fid s.file_table with
            | none => none
            | some r => some (l ++ [(ne.1, ChildInfo.file r.size r.created r.modified)])
          | ChildRef.dir q =>
            match aget q s.directory_structure with
            | none => none
            | some sd => some (l ++ [(ne.1, ChildInfo.dir sd.created sd.modified sd.contents.length)]))
      (some [])
    match items with
    | none => none
    | some cs =>
      some ⟨if (basename p).data.isEmpty then "/" else basename p, p, d.created, d.modified, cs⟩

/-- `delete_directory` body (lines 693-760) with recursion fuel (children are
deleted post-order before the entry itself); `shutil.rmtree` on the recursive
path drops every physical file strictly below the directory. -/
def delete_directory_go : Nat → FSState → String → Bool → Bool × FSState
  | 0, s, _, _ => (false, s)
  | fuel + 1, s, path, recursive =>
    let p := norm1 path
    if p = "/" then (false, s)
    else
      match aget p s.directory_structure with
      | none => (false, s)
      | some d =>
        if d.contents ≠ [] ∧ recursive = false then (false, s)
        else
          let s :=
            if recursive then
              d.contents.foldl
                (fun st ne =>
                  match ne.2 with
                  | ChildRef.file _ => (delete_file st (pyJoin p ne.1)).2
                  | ChildRef.dir q => (delete_directory_go fuel st q true).2) s
            else s
          match aget (dirname p) s.directory_structure with
          | none => (false, s)
          | some pe =>
            let pe' := { pe with contents := adel (basename p) pe.contents }
            let s := { s with directory_structure := aset (dirname p) pe' s.directory_structure }
            let s := { s with directory_structure := adel p s.directory_structure }
            let s :=
              if recursive then
                { s with physical := s.physical.filter (fun e => !(hasPref (p ++ "/") e.1)) }
              else s
            (true, save_metadata s)

/-- `delete_directory` (lines 693-760); one fuel unit per directory entry
covers every terminating recursion. -/
def delete_directory (s : FSState) (path : String) (recursive : Bool) : Bool × FSState :=
  delete_directory_go (s.directory_structure.length + 1) s path recursive

/-- `sorted(self.file_table.items(), key=lambda x: x[1]['path'])` (line 865). -/
def sortedByPath (l : List (String × FileRec)) : List (String × FileRec) :=
  pySort (fun a b => strLe a.2.path b.2.path) l

/-- `(file_size + self.block_size - 1) // self.block_size` (line 869). -/
def nBlocks (bs : Nat) (e : String × FileRec) : Nat := (e.2.size + bs - 1) / bs

/-- The reallocation pass of `defragment` (lines 867-873): each file, in the
given order, gets a fresh run sized by its block count. -/
def defrag_fold (l : List (String × FileRec)) (s : FSState) : FSState :=
  l.foldl
    (fun st e =>
      let als := allocate_blocks (nBlocks st.block_size e) st
      { als.2 with file_table := aset e.1 { e.2 with blocks := als.1 } als.2.file_table }) s

/-- `defragment` (lines 841-882): sort the pool, reset it to the contiguous
range over the total block count, then hand every file (in ascending path
order) a fresh run sized by its block count, and save.  The source's `except`
arm (restore the file table, return `False`) is unreachable here: nothing in
the body raises unless `block_size` were `0`, and it is fixed at 4096. -/
def defragment (s : FSState) : Bool × FSState :=
  let s := { s with free_blocks := pySort (fun a b => decide (a ≤ b)) s.free_blocks }
  let total := (s.file_table.map (fun e => e.2.blocks.length)).sum + s.free_blocks.length
  let s := { s with free_blocks := List.range' 1 total }
  (true, save_metadata (defrag_fold (sortedByPath s.file_table) s))

/-- The backup-selection logic of `_recover_metadata` (lines 130-159): filter
the backup directory on the fixed stem, sort, deserialize the single newest
candidate.  A `some` result is the adopted state; `none` is exactly the branch
that falls through to the full physical rescan. -/
def recover_metadata_choice (backups : List (String × MetaJson)) : Option MetaSnapshot :=
  let names := (backups.filter (fun e => hasPref "metadata_backup_" e.1)).map (fun e => e.1)
  if names.isEmpty then none
  else
    match (pySort strLe names).getLast? with
    | none => none
    | some latest =>
      match aget latest backups with
      | none => none
      | some mj => parseMeta mj

/-- The pool as extended by `_allocate_blocks` before it slices (lines
235-239): unchanged when it already holds `n` entries, otherwise lengthened by
`n` fresh identifiers just above its own maximum. -/
def allocExt (n : Nat) (fb : List Nat) : List Nat :=
  if fb.length < n then fb ++ List.range' (pyMax fb + 1) n else fb

/-! ## Concrete states used by the claim analyses -/

/-- Fresh manager after `create_file("/a", "hi")`. -/
def sFileA : FSState := (create_file initState "/a" "hi").2

/-- `sFileA` after `read_file("/a")` populated the read cache. -/
def sFileARead : FSState := (read_file sFileA "/a").2

/-- `sFileA` overwritten with the same content, which leaves a per-file backup
whose checksum matches the stored checksum. -/
def sFileAW : FSState := (write_file sFileA "/a" "hi").2

/-- `sFileAW` with the read cache empty (as after TTL expiry) and the physical
content overwritten with the corruption marker `simulate_disk_crash("files")`
writes (line 979). -/
def sCorrupt : FSState :=
  { sFileAW with
      read_cache := []
      physical := aset "/a" "CORRUPTED DATA!!!" sFileAW.physical }

/-- Fresh manager holding two one-block files (for the defragmentation and
fault-swallowing witnesses). -/
def sTwoFiles : FSState := (create_file (create_file initState "/b" "xy").2 "/a" "hi").2

/-- `sTwoFiles` with an empty subdirectory `/e` and the persistence fault
armed. -/
def sFault : FSState := { (create_directory sTwoFiles "/e").2 with persistFault := true }

/-- The allocator-relevant fragment of the state reached from a fresh system
by creating 1000 one-block files (`/f0` … `/f999`, one byte each): the free
pool is exhausted while live records hold blocks 1..1000.  (The full
1001-operation run is too deep for kernel evaluation; this state reproduces
its allocator configuration, with the 1000 issued blocks concentrated in one
record for legibility.) -/
def exhaustedState : FSState :=
  { block_size := 4096, free_blocks := [],
    file_table := [(md5 "/a", ⟨"/a", 4096000, List.range' 1 1000, 0, 0, md5 "A"⟩)],
    directory_structure :=
      [("/", ⟨0, 0, [("a", ChildRef.file (md5 "/a"))]⟩)],
    read_cache := [], cache_timestamps := [], cache_max_size := 100,
    cache_ttl := 300, physical := [("/a", "A")], backups := [], metaBackups := [],
    durable := none, persistFault := false, clock := 0 }

/-- A small allocator state: free pool `[5]` while a live record holds blocks
`[6, 7]`, so the issued maximum is `7` but the pool maximum is `5`. -/
def poolState : FSState :=
  { block_size := 4096, free_blocks := [5],
    file_table := [(md5 "/a", ⟨"/a", 8192, [6, 7], 0, 0, md5 "A"⟩)],
    directory_structure :=
      [("/", ⟨0, 0, [("a", ChildRef.file (md5 "/a"))]⟩)],
    read_cache := [], cache_timestamps := [], cache_max_size := 100,
    cache_ttl := 300, physical := [("/a", "A")], backups := [], metaBackups := [],
    durable := none, persistFault := false, clock := 0 }

/-! ## Association-list lemmas -/

theorem aget_aset_self {α : Type} (k : String) (v : α) (l : List (String × α)) :
    aget k (aset k v l) = some v := by
  induction l with
  | nil => simp [aget, aset]
  | cons e t ih =>
    obtain ⟨k', v'⟩ := e
    by_cases h : k' = k
    · simp [aset, h, aget]
    · simp [aset, h, aget, ih]

theorem aget_aset_ne {α : Type} {k' k : String} (v : α) (l : List (String × α))
    (h : k' ≠ k) : aget k (aset k' v l) = aget k l := by
  induction l with
  | nil => simp [aget, aset, h]
  | cons e t ih =>
    obtain ⟨k'', v''⟩ := e
    by_cases h2 : k'' = k'
    · subst h2
      simp [aset, aget, h, Ne.symm h]
    · by_cases h3 : k'' = k
      · subst h3
        simp [aset, aget, h2, ih]
      · simp [aset, h2, aget, h3, ih]

theorem aget_adel_self {α : Type} (k : String) (l : List (String × α)) :
    aget k (adel k l) = none := by
  induction l with
  | nil => simp [aget, adel]
  | cons e t ih =>
    obtain ⟨k', v'⟩ := e
    by_cases h : k' = k
    · subst h
      rw [adel, List.filter_cons_of_neg (by simp)]
      exact ih
    · rw [adel, List.filter_cons_of_pos (by simp [h])]
      rw [show List.filter (fun e => e.1 != k) t = adel k t from rfl]
      simp [aget, h, ih]

theorem aget_adel_ne {α : Type} {k' k : String} (l : List (String × α))
    (h : k' ≠ k) : aget k (adel k' l) = aget k l := by
  induction l with
  | nil => simp [aget, adel]
  | cons e t ih =>
    obtain ⟨k'', v''⟩ := e
    by_cases h2 : k'' = k'
    · subst h2
      rw [adel, List.filter_cons_of_neg (by simp)]
      rw [show List.filter (fun e => e.1 != k'') t = adel k'' t from rfl]
      simp [aget, h, ih]
    · rw [adel, List.filter_cons_of_pos (by simp [h2])]
      rw [show List.filter (fun e => e.1 != k') t = adel k' t from rfl]
      by_cases h3 : k'' = k
      · subst h3
        simp [aget]
      · simp [aget, h3, ih]

theorem aget_filterKeys {α : Type} (L : List String) (k : String)
    (l : List (String × α)) :
    aget k (l.filter (fun e => !(L.contains e.1))) =
      if k ∈ L then none else aget k l := by
  induction l with
  | nil => simp [aget]
  | cons e t ih =>
    obtain ⟨k', v'⟩ := e
    by_cases hc : k' ∈ L
    · rw [List.filter_cons_of_neg (by simp [hc])]
      rw [ih]
      by_cases h : k' = k
      · subst h
        simp [hc]
      · simp [aget, h]
    · rw [List.filter_cons_of_pos (by simp [hc])]
      by_cases h : k' = k
      · subst h
        simp [aget, hc]
      · simp only [aget, h, if_false, ih]

theorem aget_mem {α : Type} {k : String} {v : α} {l : List (String × α)}
    (h : aget k l = some v) : (k, v) ∈ l := by
  induction l with
  | nil => simp [aget] at h
  | cons e t ih =>
    obtain ⟨k', v'⟩ := e
    by_cases h2 : k' = k
    · subst h2
      simp [aget] at h
      simp [h]
    · simp [aget, h2] at h
      exact List.mem_cons_of_mem _ (ih h)

theorem aget_isSome_of_mem_keys {α : Type} {k : String} {l : List (String × α)}
    (h : k ∈ l.map (fun e => e.1)) : ∃ v, aget k l = some v := by
  induction l with
  | nil => simp at h
  | cons e t ih =>
    obtain ⟨k', v'⟩ := e
    by_cases h2 : k' = k
    · exact ⟨v', by simp [aget, h2]⟩
    · have h3 : k ∈ t.map (fun e => e.1) := by
        rcases List.mem_cons.mp h with h4 | h4
        · exact absurd h4.symm h2
        · exact h4
      obtain ⟨v, hv⟩ := ih h3
      exact ⟨v, by simp [aget, h2, hv]⟩

theorem aget_of_mem_nodupkeys {α : Type} {k : String} {v : α}
    {l : List (String × α)} (hnd : (l.map (fun e => e.1)).Nodup)
    (h : (k, v) ∈ l) : aget k l = some v := by
  induction l with
  | nil => simp at h
  | cons e t ih =>
    obtain ⟨k', v'⟩ := e
    simp only [List.map_cons, List.nodup_cons] at hnd
    rcases List.mem_cons.mp h with h1 | h1
    · obtain ⟨hk, hv⟩ := Prod.ext_iff.mp h1
      subst hk
      subst hv
      simp [aget]
    · have hk : k' ≠ k := by
        intro hkk
        subst hkk
        exact hnd.1 (List.mem_map.mpr ⟨(k', v), h1, rfl⟩)
      simp [aget, hk, ih hnd.2 h1]

/-! ## Stable-sort lemmas -/

theorem insertLe_perm {α : Type} (le : α → α → Bool) (a : α) (l : List α) :
    (insertLe le a l).Perm (a :: l) := by
  induction l with
  | nil => exact List.Perm.refl _
  | cons b t ih =>
    unfold insertLe
    split
    · exact List.Perm.refl _
    · exact (List.Perm.cons b ih).trans (List.Perm.swap a b t)

theorem pySort_perm {α : Type} (le : α → α → Bool) (l : List α) :
    (pySort le l).Perm l := by
  induction l with
  | nil => exact List.Perm.refl _
  | cons a t ih => exact (insertLe_perm le a (pySort le t)).trans (List.Perm.cons a ih)

theorem pairwise_insertLe {α : Type} {le : α → α → Bool}
    (htotal : ∀ a b, (le a b || le b a) = true)
    (htrans : ∀ a b c, le a b = true → le b c = true → le a c = true)
    (a : α) {l : List α}
    (hp : List.Pairwise (fun x y => le x y = true) l) :
    List.Pairwise (fun x y => le x y = true) (insertLe le a l) := by
  induction l with
  | nil => simp [insertLe]
  | cons b t ih =>
    unfold insertLe
    split
    · next hab =>
      refine List.pairwise_cons.mpr ⟨?_, hp⟩
      intro x hx
      rcases List.mem_cons.mp hx with h1 | h1
      · subst h1
        exact hab
      · exact htrans a b x hab ((List.pairwise_cons.mp hp).1 x h1)
    · next hab =>
      have hba : le b a = true := by
        have hor := htotal a b
        rw [Bool.or_eq_true] at hor
        rcases hor with h | h
        · exact absurd h hab
        · exact h
      refine List.pairwise_cons.mpr ⟨?_, ih (List.pairwise_cons.mp hp).2⟩
      intro x hx
      rcases List.mem_cons.mp (((insertLe_perm le a t).mem_iff).mp hx) with h1 | h1
      · subst h1
        exact hba
      · exact (List.pairwise_cons.mp hp).1 x h1

theorem pairwise_pySort {α : Type} {le : α → α → Bool}
    (htotal : ∀ a b, (le a b || le b a) = true)
    (htrans : ∀ a b c, le a b = true → le b c = true → le a c = true)
    (l : List α) :
    List.Pairwise (fun x y => le x y = true) (pySort le l) := by
  induction l with
  | nil => simp [pySort]
  | cons a t ih => exact pairwise_insertLe htotal htrans a ih

theorem charListLe_refl : ∀ l : List Char, charListLe l l = true := by
  intro l
  induction l with
  | nil => rfl
  | cons a t ih => simp [charListLe, lt_irrefl, ih]

theorem strLe_refl (a : String) : strLe a a = true := charListLe_refl a.data

theorem charListLe_total : ∀ x y : List Char, (charListLe x y || charListLe y x) = true := by
  intro x
  induction x with
  | nil => intro y; simp [charListLe]
  | cons a as ih =>
    intro y
    cases y with
    | nil => simp [charListLe]
    | cons b bs =>
      rcases lt_trichotomy a b with h | h | h
      · simp [charListLe, h]
      · subst h
        simp only [charListLe, lt_irrefl, if_false]
        exact ih bs
      · simp [charListLe, h, lt_asymm h]

theorem strLe_total (a b : String) : (strLe a b || strLe b a) = true :=
  charListLe_total a.data b.data

theorem charListLe_trans : ∀ x y z : List Char, charListLe x y = true →
    charListLe y z = true → charListLe x z = true := by
  intro x
  induction x with
  | nil => intro y z _ _; rfl
  | cons a as ih =>
    intro y z hxy hyz
    cases y with
    | nil => simp [charListLe] at hxy
    | cons b bs =>
      cases z with
      | nil => simp [charListLe] at hyz
      | cons c cs =>
        rcases lt_trichotomy a b with hab | hab | hab
        · rcases lt_trichotomy b c with hbc | hbc | hbc
          · simp [charListLe, lt_trans hab hbc]
          · subst hbc
            simp [charListLe, hab]
          · simp [charListLe, hbc, lt_asymm hbc] at hyz
        · subst hab
          rcases lt_trichotomy a c with hac | hac | hac
          · simp [charListLe, hac]
          · subst hac
            simp [charListLe, lt_irrefl] at hxy hyz ⊢
            exact ih bs cs hxy hyz
          · simp [charListLe, hac, lt_asymm hac] at hyz
        · simp [charListLe, hab, lt_asymm hab] at hxy
  
theorem strLe_trans (a b c : String) (h1 : strLe a b = true) (h2 : strLe b c = true) :
    strLe a c = true := charListLe_trans a.data b.data c.data h1 h2

/-! ## Field-preservation lemmas for the state transformers -/

theorem save_metadata_eq (s : FSState) : ∃ d mb,
    save_metadata s = { s with durable := d, metaBackups := mb } := by
  unfold save_metadata
  split
  · exact ⟨s.durable, s.metaBackups, rfl⟩
  · split
    · exact ⟨_, _, rfl⟩
    · exact ⟨_, _, rfl⟩

theorem save_metadata_ds (s : FSState) :
    (save_metadata s).directory_structure = s.directory_structure := by
  obtain ⟨d, mb, h⟩ := save_metadata_eq s
  rw [h]

theorem save_metadata_ft (s : FSState) :
    (save_metadata s).file_table = s.file_table := by
  obtain ⟨d, mb, h⟩ := save_metadata_eq s
  rw [h]

theorem save_metadata_rc (s : FSState) :
    (save_metadata s).read_cache = s.read_cache := by
  obtain ⟨d, mb, h⟩ := save_metadata_eq s
  rw [h]

theorem save_metadata_ts (s : FSState) :
    (save_metadata s).cache_timestamps = s.cache_timestamps := by
  obtain ⟨d, mb, h⟩ := save_metadata_eq s
  rw [h]

theorem save_metadata_phys (s : FSState) :
    (save_metadata s).physical = s.physical := by
  obtain ⟨d, mb, h⟩ := save_metadata_eq s
  rw [h]

theorem save_metadata_free (s : FSState) :
    (save_metadata s).free_blocks = s.free_blocks := by
  obtain ⟨d, mb, h⟩ := save_metadata_eq s
  rw [h]

theorem save_metadata_bk (s : FSState) :
    (save_metadata s).backups = s.backups := by
  obtain ⟨d, mb, h⟩ := save_metadata_eq s
  rw [h]

theorem save_metadata_clock (s : FSState) :
    (save_metadata s).clock = s.clock := by
  obtain ⟨d, mb, h⟩ := save_metadata_eq s
  rw [h]

theorem save_metadata_bs (s : FSState) :
    (save_metadata s).block_size = s.block_size := by
  obtain ⟨d, mb, h⟩ := save_metadata_eq s
  rw [h]

theorem save_metadata_cms (s : FSState) :
    (save_metadata s).cache_max_size = s.cache_max_size := by
  obtain ⟨d, mb, h⟩ := save_metadata_eq s
  rw [h]

theorem save_metadata_ttl (s : FSState) :
    (save_metadata s).cache_ttl = s.cache_ttl := by
  obtain ⟨d, mb, h⟩ := save_metadata_eq s
  rw [h]

theorem save_metadata_fault (s : FSState) :
    (save_metadata s).persistFault = s.persistFault := by
  obtain ⟨d, mb, h⟩ := save_metadata_eq s
  rw [h]

theorem save_metadata_durable_of_fault (s : FSState) (h : s.persistFault = true) :
    (save_metadata s).durable = s.durable := by
  unfold save_metadata
  rw [h]
  simp

theorem add_to_cache_eq (p c : String) (s : FSState) : ∃ rc ts,
    add_to_cache p c s = { s with read_cache := rc, cache_timestamps := ts } := by
  unfold add_to_cache
  split
  · split
    · exact ⟨_, _, rfl⟩
    · exact ⟨_, _, rfl⟩
  · exact ⟨_, _, rfl⟩

theorem add_to_cache_ds (p c : String) (s : FSState) :
    (add_to_cache p c s).directory_structure = s.directory_structure := by
  obtain ⟨rc, ts, h⟩ := add_to_cache_eq p c s
  rw [h]

theorem add_to_cache_ft (p c : String) (s : FSState) :
    (add_to_cache p c s).file_table = s.file_table := by
  obtain ⟨rc, ts, h⟩ := add_to_cache_eq p c s
  rw [h]

theorem add_to_cache_phys (p c : String) (s : FSState) :
    (add_to_cache p c s).physical = s.physical := by
  obtain ⟨rc, ts, h⟩ := add_to_cache_eq p c s
  rw [h]

theorem add_to_cache_free (p c : String) (s : FSState) :
    (add_to_cache p c s).free_blocks = s.free_blocks := by
  obtain ⟨rc, ts, h⟩ := add_to_cache_eq p c s
  rw [h]

theorem add_to_cache_durable (p c : String) (s : FSState) :
    (add_to_cache p c s).durable = s.durable := by
  obtain ⟨rc, ts, h⟩ := add_to_cache_eq p c s
  rw [h]

theorem add_to_cache_fault (p c : String) (s : FSState) :
    (add_to_cache p c s).persistFault = s.persistFault := by
  obtain ⟨rc, ts, h⟩ := add_to_cache_eq p c s
  rw [h]

theorem add_to_cache_bk (p c : String) (s : FSState) :
    (add_to_cache p c s).backups = s.backups := by
  obtain ⟨rc, ts, h⟩ := add_to_cache_eq p c s
  rw [h]

theorem add_to_cache_rc (p c : String) (s : FSState) :
    aget p (add_to_cache p c s).read_cache = some c := by
  unfold add_to_cache
  split
  · split
    · simp [aget_aset_self]
    · simp [aget_aset_self]
  · simp [aget_aset_self]

theorem add_to_cache_ts_self (p c : String) (s : FSState) :
    aget p (add_to_cache p c s).cache_timestamps = some s.clock := by
  unfold add_to_cache
  split
  · split
    · simp [aget_aset_self]
    · simp [aget_aset_self]
  · simp [aget_aset_self]

theorem allocate_blocks_eq (n : Nat) (s : FSState) : ∃ fb,
    (allocate_blocks n s).2 = { s with free_blocks := fb } := by
  unfold allocate_blocks
  split
  · exact ⟨_, rfl⟩
  · exact ⟨_, rfl⟩

theorem allocate_blocks_ds (n : Nat) (s : FSState) :
    (allocate_blocks n s).2.directory_structure = s.directory_structure := by
  obtain ⟨fb, h⟩ := allocate_blocks_eq n s
  rw [h]

theorem allocate_blocks_ft (n : Nat) (s : FSState) :
    (allocate_blocks n s).2.file_table = s.file_table := by
  obtain ⟨fb, h⟩ := allocate_blocks_eq n s
  rw [h]

theorem allocate_blocks_phys (n : Nat) (s : FSState) :
    (allocate_blocks n s).2.physical = s.physical := by
  obtain ⟨fb, h⟩ := allocate_blocks_eq n s
  rw [h]

theorem allocate_blocks_clock (n : Nat) (s : FSState) :
    (allocate_blocks n s).2.clock = s.clock := by
  obtain ⟨fb, h⟩ := allocate_blocks_eq n s
  rw [h]

theorem allocate_blocks_bs (n : Nat) (s : FSState) :
    (allocate_blocks n s).2.block_size = s.block_size := by
  obtain ⟨fb, h⟩ := allocate_blocks_eq n s
  rw [h]

theorem allocate_blocks_durable (n : Nat) (s : FSState) :
    (allocate_blocks n s).2.durable = s.durable := by
  obtain ⟨fb, h⟩ := allocate_blocks_eq n s
  rw [h]

theorem allocate_blocks_fault (n : Nat) (s : FSState) :
    (allocate_blocks n s).2.persistFault = s.persistFault := by
  obtain ⟨fb, h⟩ := allocate_blocks_eq n s
  rw [h]

theorem backup_file_eq (p : String) (s : FSState) : ∃ bk,
    (backup_file p s).2 = { s with backups := bk } := by
  unfold backup_file
  split
  · exact ⟨_, rfl⟩
  · exact ⟨_, rfl⟩

theorem backup_file_ds (p : String) (s : FSState) :
    (backup_file p s).2.directory_structure = s.directory_structure := by
  obtain ⟨bk, h⟩ := backup_file_eq p s
  rw [h]

theorem backup_file_ft (p : String) (s : FSState) :
    (backup_file p s).2.file_table = s.file_table := by
  obtain ⟨bk, h⟩ := backup_file_eq p s
  rw [h]

theorem backup_file_phys (p : String) (s : FSState) :
    (backup_file p s).2.physical = s.physical := by
  obtain ⟨bk, h⟩ := backup_file_eq p s
  rw [h]

theorem backup_file_free (p : String) (s : FSState) :
    (backup_file p s).2.free_blocks = s.free_blocks := by
  obtain ⟨bk, h⟩ := backup_file_eq p s
  rw [h]

theorem backup_file_clock (p : String) (s : FSState) :
    (backup_file p s).2.clock = s.clock := by
  obtain ⟨bk, h⟩ := backup_file_eq p s
  rw [h]

theorem backup_file_bs (p : String) (s : FSState) :
    (backup_file p s).2.block_size = s.block_size := by
  obtain ⟨bk, h⟩ := backup_file_eq p s
  rw [h]

theorem backup_file_rc (p : String) (s : FSState) :
    (backup_file p s).2.read_cache = s.read_cache := by
  obtain ⟨bk, h⟩ := backup_file_eq p s
  rw [h]

theorem backup_file_ts (p : String) (s : FSState) :
    (backup_file p s).2.cache_timestamps = s.cache_timestamps := by
  obtain ⟨bk, h⟩ := backup_file_eq p s
  rw [h]

theorem backup_file_durable (p : String) (s : FSState) :
    (backup_file p s).2.durable = s.durable := by
  obtain ⟨bk, h⟩ := backup_file_eq p s
  rw [h]

theorem backup_file_fault (p : String) (s : FSState) :
    (backup_file p s).2.persistFault = s.persistFault := by
  obtain ⟨bk, h⟩ := backup_file_eq p s
  rw [h]

theorem recover_file_eq (fid p : String) (s : FSState) : ∃ ph,
    (recover_file fid p s).2 = { s with physical := ph } := by
  unfold recover_file
  split
  · exact ⟨_, rfl⟩
  · dsimp only
    split
    · exact ⟨_, rfl⟩
    · split
      · split
        · exact ⟨_, rfl⟩
        · exact ⟨_, rfl⟩
      · exact ⟨_, rfl⟩

theorem recover_file_ds (fid p : String) (s : FSState) :
    (recover_file fid p s).2.directory_structure = s.directory_structure := by
  obtain ⟨ph, h⟩ := recover_file_eq fid p s
  rw [h]

theorem recover_file_ft (fid p : String) (s : FSState) :
    (recover_file fid p s).2.file_table = s.file_table := by
  obtain ⟨ph, h⟩ := recover_file_eq fid p s
  rw [h]

theorem recover_file_rc (fid p : String) (s : FSState) :
    (recover_file fid p s).2.read_cache = s.read_cache := by
  obtain ⟨ph, h⟩ := recover_file_eq fid p s
  rw [h]

theorem recover_file_ts (fid p : String) (s : FSState) :
    (recover_file fid p s).2.cache_timestamps = s.cache_timestamps := by
  obtain ⟨ph, h⟩ := recover_file_eq fid p s
  rw [h]

theorem recover_file_bk (fid p : String) (s : FSState) :
    (recover_file fid p s).2.backups = s.backups := by
  obtain ⟨ph, h⟩ := recover_file_eq fid p s
  rw [h]

theorem recover_file_clock (fid p : String) (s : FSState) :
    (recover_file fid p s).2.clock = s.clock := by
  obtain ⟨ph, h⟩ := recover_file_eq fid p s
  rw [h]

theorem recover_file_durable (fid p : String) (s : FSState) :
    (recover_file fid p s).2.durable = s.durable := by
  obtain ⟨ph, h⟩ := recover_file_eq fid p s
  rw [h]

theorem recover_file_fault (fid p : String) (s : FSState) :
    (recover_file fid p s).2.persistFault = s.persistFault := by
  obtain ⟨ph, h⟩ := recover_file_eq fid p s
  rw [h]

theorem check_cache_expiration_ds (s : FSState) :
    (check_cache_expiration s).directory_structure = s.directory_structure := rfl

theorem check_cache_expiration_ft (s : FSState) :
    (check_cache_expiration s).file_table = s.file_table := rfl

theorem check_cache_expiration_phys (s : FSState) :
    (check_cache_expiration s).physical = s.physical := rfl

theorem check_cache_expiration_bk (s : FSState) :
    (check_cache_expiration s).backups = s.backups := rfl

theorem check_cache_expiration_free (s : FSState) :
    (check_cache_expiration s).free_blocks = s.free_blocks := rfl

theorem check_cache_expiration_clock (s : FSState) :
    (check_cache_expiration s).clock = s.clock := rfl

theorem check_cache_expiration_durable (s : FSState) :
    (check_cache_expiration s).durable = s.durable := rfl

/-! ## Normalization facts -/

theorem replBack_idem (s : String) : replBack (replBack s) = replBack s := by
  apply String.ext
  show (s.data.map _).map _ = s.data.map _
  rw [List.map_map]
  apply List.map_congr_left
  intro c _
  by_cases h : c = '\\' <;> simp [h]

theorem string_data_append (a b : String) : (a ++ b).data = a.data ++ b.data := rfl

theorem replBack_slash_append (q : String) :
    replBack ("/" ++ q) = "/" ++ replBack q := by
  apply String.ext
  show List.map (fun c => if c = '\\' then '/' else c) (("/" ++ q).data) =
    ("/" ++ replBack q).data
  rw [string_data_append, string_data_append]
  show List.map (fun c => if c = '\\' then '/' else c) ('/' :: q.data) =
    '/' :: List.map (fun c => if c = '\\' then '/' else c) q.data
  simp

theorem norm1_idem (p : String) : norm1 (norm1 p) = norm1 p := by
  unfold norm1
  by_cases h : (replBack p).data.head? = some '/'
  · simp only [h, if_true, replBack_idem, if_pos h]
  · simp only [h, if_false, replBack_slash_append, replBack_idem, string_data_append]
    simp

/-! ## Characterization lemmas for the compound operations -/

theorem allocate_blocks_char (n : Nat) (s : FSState) :
    allocate_blocks n s = ((allocExt n s.free_blocks).take n,
      { s with free_blocks := (allocExt n s.free_blocks).drop n }) := by
  unfold allocate_blocks allocExt
  split
  · rfl
  · rfl

theorem calculate_checksum_aset_self (p c : String) (ph : List (String × String)) :
    calculate_checksum (aset p c ph) p = md5 c := by
  unfold calculate_checksum
  rw [aget_aset_self]

theorem add_to_cache_char (p c : String) (s : FSState) : ∃ rc₀ ts₀,
    add_to_cache p c s =
      { s with read_cache := aset p c rc₀, cache_timestamps := aset p s.clock ts₀ } := by
  unfold add_to_cache
  split
  · split
    · exact ⟨_, _, rfl⟩
    · exact ⟨_, _, rfl⟩
  · exact ⟨_, _, rfl⟩

theorem create_file_success_eq (s : FSState) (q c : String) (pd : DirEntry)
    (hpd : aget (dirname (norm1 q)) s.directory_structure = some pd)
    (hname : aget (basename (norm1 q)) pd.contents = none) : ∃ bl fb,
    create_file s q c = (true, save_metadata
      { s with
        physical := aset (norm1 q) c s.physical
        free_blocks := fb
        file_table := aset (md5 (norm1 q)) ⟨norm1 q, c.utf8ByteSize, bl, s.clock, s.clock, md5 c⟩ s.file_table
        directory_structure := aset (dirname (norm1 q)) { pd with contents := aset (basename (norm1 q)) (ChildRef.file (md5 (norm1 q))) pd.contents } s.directory_structure }) := by
  refine ⟨(allocExt ((c.utf8ByteSize + s.block_size - 1) / s.block_size) s.free_blocks).take
      ((c.utf8ByteSize + s.block_size - 1) / s.block_size),
    (allocExt ((c.utf8ByteSize + s.block_size - 1) / s.block_size) s.free_blocks).drop
      ((c.utf8ByteSize + s.block_size - 1) / s.block_size), ?_⟩
  unfold create_file
  dsimp only
  rw [hpd]
  dsimp only
  rw [hname]
  dsimp only
  rw [allocate_blocks_char]
  dsimp only
  rw [calculate_checksum_aset_self]

theorem write_file_existing_eq (s : FSState) (p c : String) (pd : DirEntry)
    (fid : String) (fr : FileRec)
    (hpd : aget (dirname (norm1 p)) s.directory_structure = some pd)
    (hname : aget (basename (norm1 p)) pd.contents = some (ChildRef.file fid))
    (hfid : aget fid s.file_table = some fr) :
    write_file s p c = (true, save_metadata (add_to_cache (norm1 p) c
      { s with
        read_cache := adel (norm1 p) s.read_cache
        free_blocks := (allocExt ((c.utf8ByteSize + s.block_size - 1) / s.block_size) (s.free_blocks ++ fr.blocks)).drop ((c.utf8ByteSize + s.block_size - 1) / s.block_size)
        backups := (backup_file (norm1 p) { s with read_cache := adel (norm1 p) s.read_cache, free_blocks := s.free_blocks ++ fr.blocks }).2.backups
        physical := aset (norm1 p) c s.physical
        file_table := aset fid { fr with size := c.utf8ByteSize, blocks := (allocExt ((c.utf8ByteSize + s.block_size - 1) / s.block_size) (s.free_blocks ++ fr.blocks)).take ((c.utf8ByteSize + s.block_size - 1) / s.block_size), modified := s.clock, checksum := md5 c } s.file_table })) := by
  cases hph : aget (norm1 p) s.physical with
  | none =>
    unfold write_file invalidate_cache release_blocks backup_file
    dsimp only
    rw [norm1_idem]
    simp only [hpd, Option.isNone_some, Bool.false_eq_true, if_false]
    simp only [hname]
    simp only [hfid]
    rw [hph]
    rw [allocate_blocks_char]
    dsimp only
    rw [calculate_checksum_aset_self]
  | some c₀ =>
    unfold write_file invalidate_cache release_blocks backup_file
    dsimp only
    rw [norm1_idem]
    simp only [hpd, Option.isNone_some, Bool.false_eq_true, if_false]
    simp only [hname]
    simp only [hfid]
    rw [hph]
    rw [allocate_blocks_char]
    dsimp only
    rw [calculate_checksum_aset_self]

theorem read_file_returns (t : FSState) (p c : String) (pd : DirEntry)
    (fid : String) (fr : FileRec)
    (hc : aget (norm1 p) t.read_cache = some c ∨ aget (norm1 p) t.read_cache = none)
    (hpd : aget (dirname (norm1 p)) t.directory_structure = some pd)
    (hn : aget (basename (norm1 p)) pd.contents = some (ChildRef.file fid))
    (hf : aget fid t.file_table = some fr)
    (hcs : fr.checksum = md5 c)
    (hph : aget (norm1 p) t.physical = some c) :
    (read_file t p).1 = some c := by
  unfold read_file check_cache_expiration
  dsimp only
  rw [aget_filterKeys]
  by_cases hex : norm1 p ∈ (t.cache_timestamps.filter
      (fun e => decide (t.cache_ttl < t.clock - e.2))).map (fun e => e.1)
  · rw [if_pos hex]
    dsimp only
    rw [hpd]
    dsimp only
    rw [hn]
    dsimp only
    rw [hf]
    dsimp only
    rw [show calculate_checksum t.physical (norm1 p) = md5 c by unfold calculate_checksum; rw [hph]]
    rw [hcs]
    simp only [ne_eq, not_true_eq_false, if_false]
    rw [hph]
  · rw [if_neg hex]
    rcases hc with hc | hc
    · rw [hc]
    · rw [hc]
      dsimp only
      rw [hpd]
      dsimp only
      rw [hn]
      dsimp only
      rw [hf]
      dsimp only
      rw [show calculate_checksum t.physical (norm1 p) = md5 c by unfold calculate_checksum; rw [hph]]
      rw [hcs]
      simp only [ne_eq, not_true_eq_false, if_false]
      rw [hph]

theorem write_file_create_eq (s : FSState) (p c : String) (pd : DirEntry)
    (hpd : aget (dirname (norm1 p)) s.directory_structure = some pd)
    (hname : aget (basename (norm1 p)) pd.contents = none) :
    write_file s p c =
      create_file { s with read_cache := adel (norm1 p) s.read_cache } (norm1 p) c := by
  unfold write_file invalidate_cache
  dsimp only
  rw [norm1_idem]
  simp only [hpd, Option.isNone_some, Bool.false_eq_true, if_false]
  simp only [hname]

/-- **C1** (confirmed): for a path whose parent directory resolves, and whose
own name either is absent or currently names a file with a live record,
`write_file(p, c)` returns `True` and an immediately following `read_file(p)`
returns exactly `c` — whether the read is served from the cache entry
`write_file` installs or, after a fresh creation, from the physical content. -/
theorem write_read_roundtrip (s : FSState) (p c : String) (pd : DirEntry)
    (hpd : aget (dirname (norm1 p)) s.directory_structure = some pd)
    (hname : aget (basename (norm1 p)) pd.contents = none ∨
      ∃ fid fr, aget (basename (norm1 p)) pd.contents = some (ChildRef.file fid) ∧
        aget fid s.file_table = some fr) :
    (write_file s p c).1 = true ∧ (read_file (write_file s p c).2 p).1 = some c := by
  rcases hname with hn | ⟨fid, fr, hn, hf⟩
  · have hpd₁ : aget (dirname (norm1 (norm1 p)))
        ({ s with read_cache := adel (norm1 p) s.read_cache } : FSState).directory_structure =
        some pd := by
      rw [norm1_idem]
      exact hpd
    have hn₁ : aget (basename (norm1 (norm1 p))) pd.contents = none := by
      rw [norm1_idem]
      exact hn
    obtain ⟨bl, fb, heq⟩ :=
      create_file_success_eq { s with read_cache := adel (norm1 p) s.read_cache }
        (norm1 p) c pd hpd₁ hn₁
    rw [norm1_idem] at heq
    rw [write_file_create_eq s p c pd hpd hn, heq]
    refine ⟨rfl, ?_⟩
    apply read_file_returns _ p c
      { pd with contents := aset (basename (norm1 p)) (ChildRef.file (md5 (norm1 p))) pd.contents }
      (md5 (norm1 p))
      ⟨norm1 p, c.utf8ByteSize, bl, s.clock, s.clock, md5 c⟩
    · right
      rw [save_metadata_rc]
      exact aget_adel_self _ _
    · rw [save_metadata_ds]
      exact aget_aset_self _ _ _
    · exact aget_aset_self _ _ _
    · rw [save_metadata_ft]
      exact aget_aset_self _ _ _
    · rfl
    · rw [save_metadata_phys]
      exact aget_aset_self _ _ _
  · rw [write_file_existing_eq s p c pd fid fr hpd hn hf]
    refine ⟨rfl, ?_⟩
    apply read_file_returns _ p c pd fid { fr with size := c.utf8ByteSize, blocks := (allocExt ((c.utf8ByteSize + s.block_size - 1) / s.block_size) (s.free_blocks ++ fr.blocks)).take ((c.utf8ByteSize + s.block_size - 1) / s.block_size), modified := s.clock, checksum := md5 c }
    · left
      rw [save_metadata_rc]
      exact add_to_cache_rc _ _ _
    · rw [save_metadata_ds, add_to_cache_ds]
      exact hpd
    · exact hn
    · rw [save_metadata_ft, add_to_cache_ft]
      exact aget_aset_self _ _ _
    · rfl
    · rw [save_metadata_phys, add_to_cache_phys]
      exact aget_aset_self _ _ _

/-- Witness for `write_read_roundtrip` at a concrete input: on a fresh file
system, writing then reading `/a` yields `"hi"`. -/
theorem write_read_roundtrip_w :
    (aget (dirname (norm1 "/a")) initState.directory_structure = some ⟨0, 0, []⟩) ∧
    ((write_file initState "/a" "hi").1 = true ∧
      (read_file (write_file initState "/a" "hi").2 "/a").1 = some "hi") :=
  ⟨by decide, write_read_roundtrip initState "/a" "hi" ⟨0, 0, []⟩ (by decide)
    (Or.inl (by decide))⟩

theorem delete_file_eq (s : FSState) (p : String) (pd : DirEntry)
    (fid : String) (fr : FileRec)
    (hpd : aget (dirname (norm1 p)) s.directory_structure = some pd)
    (hname : aget (basename (norm1 p)) pd.contents = some (ChildRef.file fid))
    (hfid : aget fid s.file_table = some fr) :
    delete_file s p = (true, save_metadata
      { s with
        backups := (backup_file (norm1 p) s).2.backups
        free_blocks := s.free_blocks ++ fr.blocks
        file_table := adel fid s.file_table
        directory_structure := aset (dirname (norm1 p)) { pd with contents := adel (basename (norm1 p)) pd.contents } s.directory_structure
        physical := adel (norm1 p) s.physical }) := by
  cases hph : aget (norm1 p) s.physical with
  | none =>
    unfold delete_file release_blocks backup_file
    dsimp only
    rw [hpd]
    dsimp only
    rw [hname]
    dsimp only
    rw [hph]
    dsimp only
    rw [hfid]
  | some c₀ =>
    unfold delete_file release_blocks backup_file
    dsimp only
    rw [hpd]
    dsimp only
    rw [hname]
    dsimp only
    rw [hph]
    dsimp only
    rw [hfid]

theorem read_file_none (t : FSState) (p : String) (pd : DirEntry)
    (hc : aget (norm1 p) t.read_cache = none)
    (hpd : aget (dirname (norm1 p)) t.directory_structure = some pd)
    (hn : aget (basename (norm1 p)) pd.contents = none) :
    (read_file t p).1 = none := by
  unfold read_file check_cache_expiration
  dsimp only
  rw [aget_filterKeys]
  have hval : (if (norm1 p) ∈ (t.cache_timestamps.filter
      (fun e => decide (t.cache_ttl < t.clock - e.2))).map (fun e => e.1) then none
      else aget (norm1 p) t.read_cache) = (none : Option String) := by
    split
    · rfl
    · exact hc
  rw [hval]
  dsimp only
  rw [hpd]
  dsimp only
  rw [hn]

set_option maxRecDepth 40000 in
/-- **C2** counterexample: after creating `/a` with `"hi"` and reading it
(which caches it), `delete_file("/a")` succeeds, yet the cache entry is still
present and the subsequent `read_file("/a")` returns the stale `"hi"` instead
of failing with NotFound — `delete_file` never touches the read cache. -/
theorem delete_file_stale_cache_cex :
    (delete_file sFileARead "/a").1 = true ∧
    aget "/a" (delete_file sFileARead "/a").2.read_cache = some "hi" ∧
    (read_file (delete_file sFileARead "/a").2 "/a").1 = some "hi" := by
  decide

/-- **C2** (amended): a successful `delete_file(p)` removes the record from
the file table and the name from the parent's listing and appends the file's
blocks to the free pool, but it leaves the read cache untouched; the
subsequent `read_file(p)` fails with NotFound provided `p` is not in the
read cache. -/
theorem delete_file_effect (s : FSState) (p : String) (pd : DirEntry)
    (fid : String) (fr : FileRec)
    (hpd : aget (dirname (norm1 p)) s.directory_structure = some pd)
    (hname : aget (basename (norm1 p)) pd.contents = some (ChildRef.file fid))
    (hfid : aget fid s.file_table = some fr) :
    (delete_file s p).1 = true ∧
    aget fid (delete_file s p).2.file_table = none ∧
    (∃ pd', aget (dirname (norm1 p)) (delete_file s p).2.directory_structure = some pd' ∧
      aget (basename (norm1 p)) pd'.contents = none) ∧
    (∀ b ∈ fr.blocks, b ∈ (delete_file s p).2.free_blocks) ∧
    (delete_file s p).2.read_cache = s.read_cache ∧
    (aget (norm1 p) s.read_cache = none → (read_file (delete_file s p).2 p).1 = none) := by
  rw [delete_file_eq s p pd fid fr hpd hname hfid]
  refine ⟨rfl, ?_, ?_, ?_, ?_, ?_⟩
  · rw [save_metadata_ft]
    exact aget_adel_self _ _
  · refine ⟨{ pd with contents := adel (basename (norm1 p)) pd.contents }, ?_, ?_⟩
    · rw [save_metadata_ds]
      exact aget_aset_self _ _ _
    · exact aget_adel_self _ _
  · intro b hb
    rw [save_metadata_free]
    exact List.mem_append_right _ hb
  · rw [save_metadata_rc]
  · intro hcache
    apply read_file_none _ p { pd with contents := adel (basename (norm1 p)) pd.contents }
    · rw [save_metadata_rc]
      exact hcache
    · rw [save_metadata_ds]
      exact aget_aset_self _ _ _
    · exact aget_adel_self _ _

set_option maxRecDepth 40000 in
/-- Witness for `delete_file_effect`: deleting `/a` on the concrete state
`sFileA` (file present, cache empty). -/
theorem delete_file_effect_w :
    (aget (dirname (norm1 "/a")) sFileA.directory_structure =
        some ⟨0, 0, [("a", ChildRef.file (md5 "/a"))]⟩ ∧
      aget (basename (norm1 "/a")) [("a", ChildRef.file (md5 "/a"))] =
        some (ChildRef.file (md5 "/a")) ∧
      aget (md5 "/a") sFileA.file_table = some ⟨"/a", 2, [1], 0, 0, md5 "hi"⟩) ∧
    ((delete_file sFileA "/a").1 = true ∧
      aget (md5 "/a") (delete_file sFileA "/a").2.file_table = none ∧
      (∃ pd', aget (dirname (norm1 "/a")) (delete_file sFileA "/a").2.directory_structure = some pd' ∧
        aget (basename (norm1 "/a")) pd'.contents = none) ∧
      (∀ b ∈ ([1] : List Nat), b ∈ (delete_file sFileA "/a").2.free_blocks) ∧
      (delete_file sFileA "/a").2.read_cache = sFileA.read_cache ∧
      (aget (norm1 "/a") sFileA.read_cache = none →
        (read_file (delete_file sFileA "/a").2 "/a").1 = none)) :=
  ⟨⟨by decide, by decide, by decide⟩,
    delete_file_effect sFileA "/a" ⟨0, 0, [("a", ChildRef.file (md5 "/a"))]⟩
      (md5 "/a") ⟨"/a", 2, [1], 0, 0, md5 "hi"⟩ (by decide) (by decide) (by decide)⟩

/-! ## Range and maximum lemmas for the allocator -/

theorem range'_take (a : Nat) : ∀ (k m : Nat),
    (List.range' a k).take m = List.range' a (min m k) := by
  intro k
  induction k generalizing a with
  | zero => intro m; simp
  | succ k ih =>
    intro m
    cases m with
    | zero => simp
    | succ m =>
      rw [List.range'_succ]
      simp only [List.take_succ_cons]
      rw [ih (a + 1) m]
      rw [Nat.succ_min_succ]
      rw [List.range'_succ]

theorem range'_drop (a : Nat) : ∀ (k m : Nat),
    (List.range' a k).drop m = List.range' (a + m) (k - m) := by
  intro k
  induction k generalizing a with
  | zero => intro m; simp
  | succ k ih =>
    intro m
    cases m with
    | zero => simp
    | succ m =>
      rw [List.range'_succ]
      simp only [List.drop_succ_cons]
      rw [ih (a + 1) m]
      congr 1 <;> omega

theorem foldl_max_le_init (l : List Nat) : ∀ (a : Nat), a ≤ l.foldl max a := by
  induction l with
  | nil => intro a; simp
  | cons x t ih =>
    intro a
    simp only [List.foldl_cons]
    exact le_trans (Nat.le_max_left a x) (ih (max a x))

theorem le_pyMax {b : Nat} {l : List Nat} (h : b ∈ l) : b ≤ pyMax l := by
  have aux : ∀ (a : Nat), b ≤ l.foldl max a := by
    induction l with
    | nil => simp at h
    | cons x t ih =>
      intro a
      rcases List.mem_cons.mp h with h1 | h1
      · subst h1
        simp only [List.foldl_cons]
        exact le_trans (Nat.le_max_right a b) (foldl_max_le_init t _)
      · simp only [List.foldl_cons]
        exact ih h1 (max a x)
  cases l with
  | nil => simp at h
  | cons x t => exact aux 0

set_option maxRecDepth 40000 in
/-- **C3** (code bug): at a state whose free pool is exhausted while blocks
1..1000 are held by a live record — the allocator configuration reached from
a fresh file system by creating 1000 one-block files — the next `create_file`
hands out block 1 again: `_allocate_blocks` extends the numbering from
`max(free_blocks)` (0 for an empty pool), not from the issued maximum, so
block 1 now sits in two live FileRecords and the union acquires a duplicate. -/
theorem create_file_duplicates_block :
    exhaustedState.free_blocks = [] ∧
    (create_file exhaustedState "/b" "x").1 = true ∧
    (aget (md5 "/b") (create_file exhaustedState "/b" "x").2.file_table).map
      (fun r => r.blocks) = some [1] ∧
    (aget (md5 "/a") (create_file exhaustedState "/b" "x").2.file_table).map
      (fun r => r.blocks) = some (List.range' 1 1000) ∧
    (1 : Nat) ∈ List.range' 1 1000 := by
  refine ⟨rfl, by decide, by decide, by decide, ?_⟩
  rw [List.mem_range'_1]
  omega

/-- **C4** counterexample: at `poolState` (free pool `[5]`, a live record
holding `[6, 7]`), `allocate(2)` falls short and mints starting just above
`max(free_blocks) = 5`: it returns `[5, 6]`, where the minted `6` is not
strictly above the issued maximum `7` — it is a block the live record already
holds. -/
theorem allocate_blocks_mint_collides :
    poolState.free_blocks.length < 2 ∧
    (allocate_blocks 2 poolState).1 = [5, 6] ∧
    (aget (md5 "/a") poolState.file_table).map (fun r => r.blocks) = some [6, 7] ∧
    (6 : Nat) ∈ [6, 7] := by
  decide

/-- **C4** (amended): `allocate(n)` always returns exactly `n` identifiers
and cannot fail; when the free pool falls short, the minted identifiers are
sequential and start just above the maximum of the *free pool* (not of all
issued identifiers), and (for a duplicate-free pool) every returned
identifier is removed from the pool. -/
theorem allocate_blocks_spec (s : FSState) (n : Nat) (hnd : s.free_blocks.Nodup) :
    (allocate_blocks n s).1.length = n ∧
    (s.free_blocks.length < n →
      (allocate_blocks n s).1 =
        s.free_blocks ++ List.range' (pyMax s.free_blocks + 1) (n - s.free_blocks.length) ∧
      (allocate_blocks n s).2.free_blocks =
        List.range' (pyMax s.free_blocks + 1 + (n - s.free_blocks.length))
          s.free_blocks.length) ∧
    (∀ b ∈ (allocate_blocks n s).1, b ∉ (allocate_blocks n s).2.free_blocks) := by
  rw [allocate_blocks_char]
  dsimp only
  refine ⟨?_, ?_, ?_⟩
  · rw [List.length_take]
    have : n ≤ (allocExt n s.free_blocks).length := by
      unfold allocExt
      split
      · simp only [List.length_append, List.length_range']
        omega
      · omega
    omega
  · intro hlt
    unfold allocExt
    rw [if_pos hlt]
    constructor
    · rw [List.take_append_eq_append_take]
      rw [List.take_of_length_le (le_of_lt hlt)]
      rw [range'_take]
      congr 1
      congr 1
      have : n - s.free_blocks.length ≤ n := Nat.sub_le n _
      omega
    · rw [List.drop_append_eq_append_drop]
      rw [List.drop_eq_nil_of_le (le_of_lt hlt)]
      rw [range'_drop]
      rw [List.nil_append]
      congr 1
      omega
  · intro b hb hb'
    by_cases hlt : s.free_blocks.length < n
    · unfold allocExt at hb hb'
      rw [if_pos hlt] at hb hb'
      rw [List.take_append_eq_append_take, List.take_of_length_le (le_of_lt hlt),
        range'_take] at hb
      rw [List.drop_append_eq_append_drop, List.drop_eq_nil_of_le (le_of_lt hlt),
        range'_drop, List.nil_append] at hb'
      have hge : pyMax s.free_blocks + 1 + (n - s.free_blocks.length) ≤ b := by
        rcases List.mem_range'_1.mp hb' with ⟨h1, _⟩
        exact h1
      rcases List.mem_append.mp hb with h2 | h2
      · have := le_pyMax h2
        omega
      · rcases List.mem_range'_1.mp h2 with ⟨_, h3⟩
        have hmin : min (n - s.free_blocks.length) n = n - s.free_blocks.length := by
          omega
        rw [hmin] at h3
        omega
    · unfold allocExt at hb hb'
      rw [if_neg hlt] at hb hb'
      have hnodup : (s.free_blocks.take n ++ s.free_blocks.drop n).Nodup := by
        rw [List.take_append_drop]
        exact hnd
      exact (List.disjoint_of_nodup_append hnodup) hb hb'

/-- Witness for `allocate_blocks_spec` at `poolState` with `n = 2`. -/
theorem allocate_blocks_spec_w :
    poolState.free_blocks.Nodup ∧
    ((allocate_blocks 2 poolState).1.length = 2 ∧
      (poolState.free_blocks.length < 2 →
        (allocate_blocks 2 poolState).1 =
          poolState.free_blocks ++
            List.range' (pyMax poolState.free_blocks + 1) (2 - poolState.free_blocks.length) ∧
        (allocate_blocks 2 poolState).2.free_blocks =
          List.range' (pyMax poolState.free_blocks + 1 + (2 - poolState.free_blocks.length))
            poolState.free_blocks.length) ∧
      (∀ b ∈ (allocate_blocks 2 poolState).1, b ∉ (allocate_blocks 2 poolState).2.free_blocks)) :=
  ⟨by decide, allocate_blocks_spec poolState 2 (by decide)⟩

/-! ## Per-file recovery (C5) -/

theorem aget_expiration_none (s : FSState) (k : String)
    (h : aget k s.read_cache = none) :
    aget k (check_cache_expiration s).read_cache = none := by
  unfold check_cache_expiration
  dsimp only
  rw [aget_filterKeys]
  split
  · rfl
  · exact h

theorem recover_file_found (fid p₀ : String) (t : FSState) (fr : FileRec)
    (hfid : aget fid t.file_table = some fr)
    (n c₀ : String)
    (hget : aget n t.backups = some c₀)
    (hpref : hasPref (backupStem p₀) n = true)
    (hsum : md5 c₀ = fr.checksum) :
    ∃ v, recover_file fid p₀ t = (true, { t with physical := aset p₀ v t.physical }) ∧
      md5 v = fr.checksum := by
  unfold recover_file
  rw [hfid]
  dsimp only
  have hmemn : n ∈ (t.backups.filter (fun e => hasPref (backupStem p₀) e.1)).map
      (fun e => e.1) :=
    List.mem_map.mpr ⟨(n, c₀), List.mem_filter.mpr ⟨aget_mem hget, hpref⟩, rfl⟩
  have hne : ((t.backups.filter (fun e => hasPref (backupStem p₀) e.1)).map
      (fun e => e.1)).isEmpty = false := by
    cases hl : (t.backups.filter (fun e => hasPref (backupStem p₀) e.1)).map (fun e => e.1) with
    | nil => rw [hl] at hmemn; simp at hmemn
    | cons x xs => rfl
  rw [hne]
  simp only [Bool.false_eq_true, if_false]
  have hmem_sorted : n ∈ (pySort strLe
      ((t.backups.filter (fun e => hasPref (backupStem p₀) e.1)).map
      (fun e => e.1))).reverse := by
    rw [List.mem_reverse]
    exact ((pySort_perm _ _).mem_iff).mpr hmemn
  have hpredn : (calculate_checksum t.backups n == fr.checksum) = true := by
    unfold calculate_checksum
    rw [hget]
    dsimp only
    rw [hsum]
    exact beq_self_eq_true _
  have hfind : (((pySort strLe
      ((t.backups.filter (fun e => hasPref (backupStem p₀) e.1)).map
      (fun e => e.1))).reverse).find?
      (fun m => calculate_checksum t.backups m == fr.checksum)).isSome := by
    rw [List.find?_isSome]
    exact ⟨n, hmem_sorted, hpredn⟩
  obtain ⟨m, hm⟩ := Option.isSome_iff_exists.mp hfind
  have hpredm := List.find?_some hm
  have hmem_m : m ∈ (t.backups.filter (fun e => hasPref (backupStem p₀) e.1)).map
      (fun e => e.1) := by
    have h1 := List.mem_of_find?_eq_some hm
    rw [List.mem_reverse] at h1
    exact ((pySort_perm _ _).mem_iff).mp h1
  have hkey : m ∈ t.backups.map (fun e => e.1) := by
    obtain ⟨e, he, hee⟩ := List.mem_map.mp hmem_m
    exact List.mem_map.mpr ⟨e, (List.mem_filter.mp he).1, hee⟩
  obtain ⟨v, hv⟩ := aget_isSome_of_mem_keys hkey
  have hmd : md5 v = fr.checksum := by
    have h2 : calculate_checksum t.backups m = fr.checksum := by
      exact eq_of_beq hpredm
    unfold calculate_checksum at h2
    rw [hv] at h2
    exact h2
  refine ⟨v, ?_, hmd⟩
  rw [hm]
  dsimp only
  rw [hv]

theorem recover_file_nomatch (fid p₀ : String) (t : FSState) (fr : FileRec)
    (hfid : aget fid t.file_table = some fr)
    (hnone : ∀ e ∈ t.backups, hasPref (backupStem p₀) e.1 = true → md5 e.2 ≠ fr.checksum) :
    recover_file fid p₀ t = (false, t) := by
  unfold recover_file
  rw [hfid]
  dsimp only
  by_cases hne : ((t.backups.filter (fun e => hasPref (backupStem p₀) e.1)).map
      (fun e => e.1)).isEmpty = true
  · rw [hne]
    simp only [if_true]
  · simp only [Bool.not_eq_true] at hne
    rw [hne]
    simp only [Bool.false_eq_true, if_false]
    have hfind : ((pySort strLe
        ((t.backups.filter (fun e => hasPref (backupStem p₀) e.1)).map
        (fun e => e.1))).reverse).find?
        (fun m => calculate_checksum t.backups m == fr.checksum) = none := by
      rw [List.find?_eq_none]
      intro m hmem
      have hmem_m : m ∈ (t.backups.filter (fun e => hasPref (backupStem p₀) e.1)).map
          (fun e => e.1) := by
        rw [List.mem_reverse] at hmem
        exact ((pySort_perm _ _).mem_iff).mp hmem
      obtain ⟨e, he, hee⟩ := List.mem_map.mp hmem_m
      obtain ⟨hein, hepref⟩ := List.mem_filter.mp he
      have hkey : m ∈ t.backups.map (fun e => e.1) :=
        List.mem_map.mpr ⟨e, hein, hee⟩
      obtain ⟨v, hv⟩ := aget_isSome_of_mem_keys hkey
      have hventry : (m, v) ∈ t.backups := aget_mem hv
      have hvpref : hasPref (backupStem p₀) m = true := by
        rw [← hee]
        exact hepref
      have hvne : md5 v ≠ fr.checksum := hnone (m, v) hventry hvpref
      intro hcontra
      unfold calculate_checksum at hcontra
      rw [hv] at hcontra
      exact hvne (eq_of_beq hcontra)
    rw [hfind]

theorem read_file_mismatch_eq (s : FSState) (p : String) (pd : DirEntry)
    (fid : String) (fr : FileRec) (bad : String)
    (hcache : aget (norm1 p) s.read_cache = none)
    (hpd : aget (dirname (norm1 p)) s.directory_structure = some pd)
    (hname : aget (basename (norm1 p)) pd.contents = some (ChildRef.file fid))
    (hfid : aget fid s.file_table = some fr)
    (hphys : aget (norm1 p) s.physical = some bad)
    (hbad : md5 bad ≠ fr.checksum) :
    read_file s p =
      match aget (norm1 p) (recover_file fid (norm1 p) (check_cache_expiration s)).2.physical with
      | none => (none, (recover_file fid (norm1 p) (check_cache_expiration s)).2)
      | some content => (some content,
          add_to_cache (norm1 p) content (recover_file fid (norm1 p) (check_cache_expiration s)).2) := by
  unfold read_file
  dsimp only
  rw [aget_expiration_none s (norm1 p) hcache]
  dsimp only
  rw [show aget (dirname (norm1 p)) (check_cache_expiration s).directory_structure = some pd
    from by rw [check_cache_expiration_ds]; exact hpd]
  dsimp only
  rw [hname]
  dsimp only
  rw [show aget fid (check_cache_expiration s).file_table = some fr
    from by rw [check_cache_expiration_ft]; exact hfid]
  dsimp only
  rw [show calculate_checksum (check_cache_expiration s).physical (norm1 p) = md5 bad
    from by rw [check_cache_expiration_phys]; unfold calculate_checksum; rw [hphys]]
  rw [if_pos hbad]

/-- **C5** (confirmed): on a checksum mismatch, `read_file` triggers per-file
recovery over the backups matching the derived name stem.  If some backup's
checksum equals the stored checksum, the first match (newest-first) is
restored in place and the read returns content whose checksum equals the
stored checksum; if no matching backup exists, recovery fails, the corrupted
physical content is left unchanged, and the read returns that content. -/
theorem read_file_recovery (s : FSState) (p : String) (pd : DirEntry)
    (fid : String) (fr : FileRec) (bad : String)
    (hcache : aget (norm1 p) s.read_cache = none)
    (hpd : aget (dirname (norm1 p)) s.directory_structure = some pd)
    (hname : aget (basename (norm1 p)) pd.contents = some (ChildRef.file fid))
    (hfid : aget fid s.file_table = some fr)
    (hphys : aget (norm1 p) s.physical = some bad)
    (hbad : md5 bad ≠ fr.checksum) :
    ((∃ n c₀, aget n s.backups = some c₀ ∧ hasPref (backupStem (norm1 p)) n = true ∧
        md5 c₀ = fr.checksum) →
      ∃ c, (read_file s p).1 = some c ∧ md5 c = fr.checksum) ∧
    ((∀ e ∈ s.backups, hasPref (backupStem (norm1 p)) e.1 = true → md5 e.2 ≠ fr.checksum) →
      (read_file s p).1 = some bad ∧ (read_file s p).2.physical = s.physical) := by
  rw [read_file_mismatch_eq s p pd fid fr bad hcache hpd hname hfid hphys hbad]
  constructor
  · rintro ⟨n, c₀, hget, hpref, hsum⟩
    obtain ⟨v, hrec, hmd⟩ := recover_file_found fid (norm1 p) (check_cache_expiration s) fr
      (by rw [check_cache_expiration_ft]; exact hfid) n c₀
      (by rw [check_cache_expiration_bk]; exact hget) hpref hsum
    rw [hrec]
    dsimp only
    rw [aget_aset_self]
    exact ⟨v, rfl, hmd⟩
  · intro hnone
    rw [recover_file_nomatch fid (norm1 p) (check_cache_expiration s) fr
      (by rw [check_cache_expiration_ft]; exact hfid)
      (by rw [check_cache_expiration_bk]; exact hnone)]
    dsimp only
    rw [show aget (norm1 p) (check_cache_expiration s).physical = some bad
      from by rw [check_cache_expiration_phys]; exact hphys]
    exact ⟨rfl, by rw [add_to_cache_phys, check_cache_expiration_phys]⟩

set_option maxRecDepth 40000 in
/-- Witness for `read_file_recovery`: at `sCorrupt` (stored checksum of
`"hi"`, physical content corrupted, one matching backup), the instantiated
statement, with the hypotheses discharged concretely. -/
theorem read_file_recovery_w :
    (aget (norm1 "/a") sCorrupt.read_cache = none ∧
      aget (dirname (norm1 "/a")) sCorrupt.directory_structure =
        some ⟨0, 0, [("a", ChildRef.file (md5 "/a"))]⟩ ∧
      aget (md5 "/a") sCorrupt.file_table = some ⟨"/a", 2, [2], 0, 0, md5 "hi"⟩ ∧
      aget (norm1 "/a") sCorrupt.physical = some "CORRUPTED DATA!!!" ∧
      md5 "CORRUPTED DATA!!!" ≠ md5 "hi") ∧
    (((∃ n c₀, aget n sCorrupt.backups = some c₀ ∧
        hasPref (backupStem (norm1 "/a")) n = true ∧
        md5 c₀ = FileRec.checksum ⟨"/a", 2, [2], 0, 0, md5 "hi"⟩) →
      ∃ c, (read_file sCorrupt "/a").1 = some c ∧
        md5 c = FileRec.checksum ⟨"/a", 2, [2], 0, 0, md5 "hi"⟩) ∧
    ((∀ e ∈ sCorrupt.backups, hasPref (backupStem (norm1 "/a")) e.1 = true →
        md5 e.2 ≠ FileRec.checksum ⟨"/a", 2, [2], 0, 0, md5 "hi"⟩) →
      (read_file sCorrupt "/a").1 = some "CORRUPTED DATA!!!" ∧
      (read_file sCorrupt "/a").2.physical = sCorrupt.physical)) :=
  ⟨⟨by decide, by decide, by decide, by decide, by decide⟩,
    read_file_recovery sCorrupt "/a" ⟨0, 0, [("a", ChildRef.file (md5 "/a"))]⟩
      (md5 "/a") ⟨"/a", 2, [2], 0, 0, md5 "hi"⟩ "CORRUPTED DATA!!!"
      (by decide) (by decide) (by decide) (by decide) (by decide) (by decide)⟩

/-! ## Metadata recovery (C6) -/

theorem pairwise_le_getLast {α : Type} {le : α → α → Bool} {l : List α}
    (hrefl : ∀ a, le a a = true)
    (hp : List.Pairwise (fun a b => le a b = true) l) (hne : l ≠ []) :
    ∀ x ∈ l, le x (l.getLast hne) = true := by
  induction l with
  | nil => cases hne rfl
  | cons a t ih =>
    intro x hx
    cases t with
    | nil =>
      have hxa : x = a := by
        rcases List.mem_cons.mp hx with h1 | h1
        · exact h1
        · simp at h1
      subst hxa
      exact hrefl x
    | cons b t2 =>
      rcases List.mem_cons.mp hx with h1 | h1
      · subst h1
        have hmem := List.getLast_mem (show b :: t2 ≠ [] by simp)
        have hle := (List.pairwise_cons.mp hp).1 _ hmem
        rw [List.getLast_cons (by simp)]
        exact hle
      · have := ih (List.pairwise_cons.mp hp).2 (by simp) x h1
        rw [List.getLast_cons (by simp)]
        exact this

/-- **C6** counterexample: with two metadata backups of which the older one
(`…_001`) deserializes and the newest (`…_002`) does not, the selection of
`_recover_metadata` yields `none` — the full-rescan branch — even though a
backup deserializes successfully; older backups are never tried. -/
theorem recover_metadata_choice_cex :
    parseMeta (MetaJson.valid ⟨4096, [], [], [], 0⟩) = some ⟨4096, [], [], [], 0⟩ ∧
    recover_metadata_choice
      [("metadata_backup_001", MetaJson.valid ⟨4096, [], [], [], 0⟩),
       ("metadata_backup_002", MetaJson.invalid)] = none := by
  decide

/-- **C6** (amended): when at least one dated metadata backup exists, recovery
examines only the lexicographically newest (most recently dated) one and
adopts its state exactly when that single backup deserializes; otherwise —
and whenever no backup exists — it falls back to the full rescan, regardless
of whether an older backup would deserialize. -/
theorem recover_metadata_latest_only (backups : List (String × MetaJson))
    (hne : (backups.filter (fun e => hasPref "metadata_backup_" e.1)).map
      (fun e => e.1) ≠ []) :
    ∃ latest,
      latest ∈ (backups.filter (fun e => hasPref "metadata_backup_" e.1)).map
        (fun e => e.1) ∧
      (∀ n ∈ (backups.filter (fun e => hasPref "metadata_backup_" e.1)).map
        (fun e => e.1), strLe n latest = true) ∧
      recover_metadata_choice backups = (aget latest backups).bind parseMeta := by
  have hsne : pySort strLe
      ((backups.filter (fun e => hasPref "metadata_backup_" e.1)).map
      (fun e => e.1)) ≠ [] := by
    intro hcon
    apply hne
    have hlen := (pySort_perm strLe
      ((backups.filter (fun e => hasPref "metadata_backup_" e.1)).map
      (fun e => e.1))).length_eq
    rw [hcon] at hlen
    exact List.eq_nil_of_length_eq_zero hlen.symm
  refine ⟨(pySort strLe
      ((backups.filter (fun e => hasPref "metadata_backup_" e.1)).map
      (fun e => e.1))).getLast hsne, ?_, ?_, ?_⟩
  · have hmem := List.getLast_mem hsne
    exact ((pySort_perm _ _).mem_iff).mp hmem
  · intro n hn
    have hsorted := pairwise_pySort strLe_total strLe_trans
      ((backups.filter (fun e => hasPref "metadata_backup_" e.1)).map (fun e => e.1))
    have hmem : n ∈ pySort strLe
        ((backups.filter (fun e => hasPref "metadata_backup_" e.1)).map
        (fun e => e.1)) :=
      ((pySort_perm _ _).mem_iff).mpr hn
    exact pairwise_le_getLast strLe_refl hsorted hsne n hmem
  · unfold recover_metadata_choice
    dsimp only
    have hemp : ((backups.filter (fun e => hasPref "metadata_backup_" e.1)).map
        (fun e => e.1)).isEmpty = false := by
      cases hl : (backups.filter (fun e => hasPref "metadata_backup_" e.1)).map
          (fun e => e.1) with
      | nil => exact absurd hl hne
      | cons x xs => rfl
    rw [hemp]
    simp only [Bool.false_eq_true, if_false]
    rw [List.getLast?_eq_getLast _ hsne]
    dsimp only
    cases hv : aget ((pySort strLe
        ((backups.filter (fun e => hasPref "metadata_backup_" e.1)).map
        (fun e => e.1))).getLast hsne) backups with
    | none => rfl
    | some mj => rfl

/-- Witness for `recover_metadata_latest_only` on a one-backup store. -/
theorem recover_metadata_latest_only_w :
    ((([("metadata_backup_001", MetaJson.valid ⟨4096, [], [], [], 0⟩)] :
        List (String × MetaJson)).filter
        (fun e => hasPref "metadata_backup_" e.1)).map (fun e => e.1) ≠ []) ∧
    (∃ latest,
      latest ∈ (([("metadata_backup_001", MetaJson.valid ⟨4096, [], [], [], 0⟩)] :
        List (String × MetaJson)).filter (fun e => hasPref "metadata_backup_" e.1)).map
        (fun e => e.1) ∧
      (∀ n ∈ (([("metadata_backup_001", MetaJson.valid ⟨4096, [], [], [], 0⟩)] :
        List (String × MetaJson)).filter (fun e => hasPref "metadata_backup_" e.1)).map
        (fun e => e.1), strLe n latest = true) ∧
      recover_metadata_choice [("metadata_backup_001", MetaJson.valid ⟨4096, [], [], [], 0⟩)] =
        (aget latest [("metadata_backup_001", MetaJson.valid ⟨4096, [], [], [], 0⟩)]).bind
          parseMeta) :=
  ⟨by decide, recover_metadata_latest_only
    [("metadata_backup_001", MetaJson.valid ⟨4096, [], [], [], 0⟩)] (by decide)⟩

/-! ## Defragmentation (C7) -/

theorem defrag_fold_cons (e : String × FileRec) (t : List (String × FileRec))
    (s : FSState) :
    defrag_fold (e :: t) s = defrag_fold t
      (let als := allocate_blocks (nBlocks s.block_size e) s
       { als.2 with file_table := aset e.1 { e.2 with blocks := als.1 } als.2.file_table }) :=
  rfl

theorem defrag_fold_spec (l : List (String × FileRec)) :
    ∀ (s : FSState) (k m : Nat),
    s.free_blocks = List.range' k m →
    (l.map (nBlocks s.block_size)).sum ≤ m →
    (l.map (fun e => e.1)).Nodup →
    (defrag_fold l s).block_size = s.block_size ∧
    (∀ g, g ∉ l.map (fun e => e.1) →
      aget g (defrag_fold l s).file_table = aget g s.file_table) ∧
    (∀ i (hi : i < l.length),
      aget (l.get ⟨i, hi⟩).1 (defrag_fold l s).file_table =
        some { (l.get ⟨i, hi⟩).2 with
          blocks := List.range' (k + ((l.take i).map (nBlocks s.block_size)).sum)
            (nBlocks s.block_size (l.get ⟨i, hi⟩)) }) := by
  induction l with
  | nil =>
    intro s k m hfree hsum hkeys
    refine ⟨rfl, fun g _ => rfl, ?_⟩
    intro i hi
    simp at hi
  | cons e t ih =>
    intro s k m hfree hsum hkeys
    rw [List.map_cons, List.sum_cons] at hsum
    have hn0 : nBlocks s.block_size e ≤ m := by omega
    have hext : allocExt (nBlocks s.block_size e) s.free_blocks = List.range' k m := by
      unfold allocExt
      rw [hfree, List.length_range']
      rw [if_neg (by omega)]
    have htake : (allocExt (nBlocks s.block_size e) s.free_blocks).take
        (nBlocks s.block_size e) = List.range' k (nBlocks s.block_size e) := by
      rw [hext, range'_take]
      congr 1
      omega
    have hdrop : (allocExt (nBlocks s.block_size e) s.free_blocks).drop
        (nBlocks s.block_size e) = List.range' (k + nBlocks s.block_size e)
        (m - nBlocks s.block_size e) := by
      rw [hext, range'_drop]
    rw [defrag_fold_cons]
    rw [allocate_blocks_char]
    dsimp only
    rw [htake, hdrop]
    rw [List.map_cons, List.nodup_cons] at hkeys
    obtain ⟨hknot, hktail⟩ := hkeys
    obtain ⟨ihbs, ihpres, ihidx⟩ := ih { s with free_blocks := List.range' (k + nBlocks s.block_size e) (m - nBlocks s.block_size e), file_table := aset e.1 { e.2 with blocks := List.range' k (nBlocks s.block_size e) } s.file_table } (k + nBlocks s.block_size e) (m - nBlocks s.block_size e) rfl (by dsimp only; omega) hktail
    refine ⟨ihbs, ?_, ?_⟩
    · intro g hg
      rw [List.map_cons, List.mem_cons] at hg
      push_neg at hg
      rw [ihpres g hg.2]
      dsimp only
      exact aget_aset_ne _ _ (fun hc => hg.1 hc.symm)
    · intro i hi
      cases i with
      | zero =>
        have h0 : ((e :: t).get ⟨0, hi⟩) = e := rfl
        rw [h0]
        simp only [List.take_zero, List.map_nil, List.sum_nil, Nat.add_zero]
        rw [ihpres e.1 hknot]
        dsimp only
        rw [aget_aset_self]
      | succ i =>
        rw [List.get_cons_succ]
        rw [List.take_succ_cons, List.map_cons, List.sum_cons, ← Nat.add_assoc]
        exact ihidx i (by simpa using hi)

/-- **C7** (confirmed): on any state satisfying the block-count invariant
(every record's block list has length `ceil(size / block_size)`, duplicate-free
file ids), `defragment()` returns `True`; every file keeps its size, checksum,
path and creation time (only `blocks` changes); and, walking the file table in
ascending path order, the `i`-th file receives the fresh contiguous run
starting at `1 +` the total block count of the files before it, of length
`ceil(size / block_size)` — consecutive contiguous runs in path order. -/
theorem defragment_invariance (s : FSState)
    (hnd : (s.file_table.map (fun e => e.1)).Nodup)
    (hinv : ∀ e ∈ s.file_table, e.2.blocks.length = nBlocks s.block_size e) :
    (defragment s).1 = true ∧
    (∀ fid fr, aget fid s.file_table = some fr → ∃ bl,
      aget fid (defragment s).2.file_table = some { fr with blocks := bl }) ∧
    (∀ i (hi : i < (sortedByPath s.file_table).length),
      aget ((sortedByPath s.file_table).get ⟨i, hi⟩).1 (defragment s).2.file_table =
        some { ((sortedByPath s.file_table).get ⟨i, hi⟩).2 with
          blocks := List.range'
            (1 + (((sortedByPath s.file_table).take i).map (nBlocks s.block_size)).sum)
            (nBlocks s.block_size ((sortedByPath s.file_table).get ⟨i, hi⟩)) }) := by
  have hperm : (sortedByPath s.file_table).Perm s.file_table := pySort_perm _ _
  have hsum : ((sortedByPath s.file_table).map (nBlocks s.block_size)).sum ≤
      (s.file_table.map (fun e => e.2.blocks.length)).sum +
      (pySort (fun a b => decide (a ≤ b)) s.free_blocks).length := by
    have h1 : ((sortedByPath s.file_table).map (nBlocks s.block_size)).sum =
        (s.file_table.map (nBlocks s.block_size)).sum :=
      (hperm.map (nBlocks s.block_size)).sum_eq
    have h2 : (s.file_table.map (nBlocks s.block_size)).sum =
        (s.file_table.map (fun e => e.2.blocks.length)).sum := by
      congr 1
      exact List.map_congr_left (fun e he => (hinv e he).symm)
    omega
  have hkeys : ((sortedByPath s.file_table).map (fun e => e.1)).Nodup :=
    ((hperm.map (fun e => e.1)).nodup_iff).mpr hnd
  obtain ⟨hbs, hpres, hidx⟩ := defrag_fold_spec (sortedByPath s.file_table)
    { s with
      free_blocks := List.range' 1 ((s.file_table.map (fun e => e.2.blocks.length)).sum +
        (pySort (fun a b => decide (a ≤ b)) s.free_blocks).length) }
    1
    ((s.file_table.map (fun e => e.2.blocks.length)).sum +
      (pySort (fun a b => decide (a ≤ b)) s.free_blocks).length)
    rfl hsum hkeys
  refine ⟨rfl, ?_, ?_⟩
  · intro fid fr hget
    have hmem : (fid, fr) ∈ sortedByPath s.file_table :=
      hperm.mem_iff.mpr (aget_mem hget)
    obtain ⟨⟨i, hi⟩, hgeti⟩ := List.mem_iff_get.mp hmem
    refine ⟨List.range'
      (1 + (((sortedByPath s.file_table).take i).map (nBlocks s.block_size)).sum)
      (nBlocks s.block_size ((sortedByPath s.file_table).get ⟨i, hi⟩)), ?_⟩
    have := hidx i hi
    rw [hgeti] at this
    unfold defragment
    dsimp only
    rw [save_metadata_ft]
    rw [show ((fid, fr) : String × FileRec).1 = fid from rfl] at this
    rw [show ((fid, fr) : String × FileRec).2 = fr from rfl] at this
    rw [this]
    congr 2
    rw [hgeti]
  · intro i hi
    unfold defragment
    dsimp only
    rw [save_metadata_ft]
    exact hidx i hi

set_option maxRecDepth 40000 in
/-- Witness for `defragment_invariance` on the two-file state `sTwoFiles`. -/
theorem defragment_invariance_w :
    ((sTwoFiles.file_table.map (fun e => e.1)).Nodup ∧
      ∀ e ∈ sTwoFiles.file_table, e.2.blocks.length = nBlocks sTwoFiles.block_size e) ∧
    ((defragment sTwoFiles).1 = true ∧
      (∀ fid fr, aget fid sTwoFiles.file_table = some fr → ∃ bl,
        aget fid (defragment sTwoFiles).2.file_table = some { fr with blocks := bl }) ∧
      (∀ i (hi : i < (sortedByPath sTwoFiles.file_table).length),
        aget ((sortedByPath sTwoFiles.file_table).get ⟨i, hi⟩).1
            (defragment sTwoFiles).2.file_table =
          some { ((sortedByPath sTwoFiles.file_table).get ⟨i, hi⟩).2 with
            blocks := List.range'
              (1 + (((sortedByPath sTwoFiles.file_table).take i).map
                (nBlocks sTwoFiles.block_size)).sum)
              (nBlocks sTwoFiles.block_size
                ((sortedByPath sTwoFiles.file_table).get ⟨i, hi⟩)) })) :=
  ⟨⟨by decide, by decide⟩,
    defragment_invariance sTwoFiles (by decide) (by decide)⟩

/-! ## Trailing-slash normalization (C8) -/

theorem string_mk_data (q : String) : String.mk q.data = q := by
  cases q
  rfl

theorem replBack_append_slash2 (p : String) :
    replBack (p ++ "/") = replBack p ++ "/" := by
  apply String.ext
  show (p ++ "/").data.map (fun c => if c = '\\' then '/' else c) =
    (replBack p ++ "/").data
  rw [string_data_append, string_data_append]
  show (p.data ++ ['/']).map (fun c => if c = '\\' then '/' else c) =
    p.data.map (fun c => if c = '\\' then '/' else c) ++ ['/']
  rw [List.map_append]
  rfl

theorem replBack_getLast_safe (p : String)
    (h1 : p.data.getLast? ≠ some '/') (h2 : p.data.getLast? ≠ some '\\') :
    (replBack p).data.getLast? ≠ some '/' := by
  show (p.data.map (fun c => if c = '\\' then '/' else c)).getLast? ≠ some '/'
  rw [List.getLast?_map]
  cases hpl : p.data.getLast? with
  | none => simp
  | some a =>
    rw [hpl] at h1 h2
    rw [Option.map_some']
    intro hcon
    by_cases ha : a = '\\'
    · exact h2 (by rw [ha])
    · simp only [ha, if_false] at hcon
      exact h1 hcon

theorem norm2_append_slash (p : String)
    (h1 : p.data.getLast? ≠ some '/') (h2 : p.data.getLast? ≠ some '\\') :
    norm2 (p ++ "/") = norm2 p := by
  have hql := replBack_getLast_safe p h1 h2
  cases hq : (replBack p).data with
  | nil =>
    have hrep : replBack p = "" := String.ext hq
    have hrep2 : replBack (p ++ "/") = "/" := by
      rw [replBack_append_slash2, hrep]
      apply String.ext
      rfl
    unfold norm2 norm1
    rw [hrep2, hrep]
    decide
  | cons c cs =>
    have hNdata : (norm1 p).data = (replBack p).data ∨
        (norm1 p).data = '/' :: (replBack p).data := by
      unfold norm1
      dsimp only
      split
      · exact Or.inl rfl
      · exact Or.inr (by rw [string_data_append]; rfl)
    have hNne : (norm1 p).data ≠ [] := by
      rcases hNdata with h | h <;> rw [h, hq] <;> simp
    have hNlast : (norm1 p).data.getLast? ≠ some '/' := by
      rcases hNdata with h | h
      · rw [h]
        exact hql
      · rw [h, hq]
        rw [List.getLast?_cons_cons]
        rw [← hq]
        exact hql
    have hb : norm1 (p ++ "/") = norm1 p ++ "/" := by
      unfold norm1
      dsimp only
      rw [replBack_append_slash2]
      by_cases hc : (replBack p).data.head? = some '/'
      · rw [if_pos hc]
        rw [if_pos (by rw [string_data_append, hq]; rw [hq] at hc; simpa using hc)]
      · rw [if_neg hc]
        rw [if_neg (by rw [string_data_append, hq]; rw [hq] at hc; simpa using hc)]
        apply String.ext
        rw [string_data_append, string_data_append, string_data_append, string_data_append]
        rw [List.append_assoc]
    unfold norm2
    dsimp only
    rw [hb]
    have hcond1 : norm1 p ++ "/" ≠ "/" ∧ (norm1 p ++ "/").data.getLast? = some '/' := by
      constructor
      · intro hcon
        have hd := congrArg String.data hcon
        rw [string_data_append] at hd
        cases hl : (norm1 p).data with
        | nil => exact hNne hl
        | cons x xs =>
          rw [hl] at hd
          have := congrArg List.length hd
          simp at this
      · rw [string_data_append]
        exact List.getLast?_concat _
    rw [if_pos hcond1]
    have hcond2 : ¬(norm1 p ≠ "/" ∧ (norm1 p).data.getLast? = some '/') := by
      intro hcon
      exact hNlast hcon.2
    rw [if_neg hcond2]
    apply String.ext
    show ((norm1 p ++ "/").data).dropLast = (norm1 p).data
    rw [string_data_append]
    exact List.dropLast_concat

set_option maxRecDepth 40000 in
/-- **C8** counterexample: only `list_directory` strips a trailing slash.  For
`read_file`, a trailing slash changes the behavior: `/a` reads back its
content while `/a/` fails to resolve (its `dirname` becomes `/a`, which is
not a directory key). -/
theorem trailing_slash_read_differs :
    (read_file sFileA "/a").1 = some "hi" ∧ (read_file sFileA "/a/").1 = none := by
  decide

/-- **C8** (amended): `list_directory` — and only it — strips one trailing
slash, so for any state and any path not already ending in a slash or
backslash, listing `p ++ "/"` equals listing `p`; the other public
operations normalize only backslashes and the leading slash, and a trailing
slash changes their outcome. -/
theorem list_directory_trailing_slash (s : FSState) (p : String)
    (h1 : p.data.getLast? ≠ some '/') (h2 : p.data.getLast? ≠ some '\\') :
    list_directory s (p ++ "/") = list_directory s p := by
  unfold list_directory
  rw [norm2_append_slash p h1 h2]

set_option maxRecDepth 40000 in
/-- Witness for `list_directory_trailing_slash`: listing `/a/` and `/a` agree
on `sFileA`. -/
theorem list_directory_trailing_slash_w :
    (("/a" : String).data.getLast? ≠ some '/' ∧
      ("/a" : String).data.getLast? ≠ some '\\') ∧
    list_directory sFileA ("/a" ++ "/") = list_directory sFileA "/a" :=
  ⟨⟨by decide, by decide⟩, list_directory_trailing_slash sFileA "/a" (by decide) (by decide)⟩

/-! ## write_file on a missing parent (C9) -/

theorem create_directory_single (s : FSState) (q : String) (pe : DirEntry)
    (hq : norm1 q = q) (hne : q ≠ "/")
    (hqd : aget q s.directory_structure = none)
    (hparent : aget (dirname q) s.directory_structure = some pe)
    (hpq : dirname q ≠ q) :
    create_directory s q = (true, save_metadata
      { s with directory_structure := aset (dirname q) { pe with contents := aset (basename q) (ChildRef.dir q) pe.contents } (aset q ⟨s.clock, s.clock, []⟩ s.directory_structure) }) := by
  unfold create_directory
  rw [hq]
  simp only [create_directory_go]
  rw [hq]
  simp only [hqd, Option.isSome_none, Bool.false_eq_true, if_false]
  simp only [hparent, Option.isNone_some, Bool.false_eq_true, and_false, if_false]
  rw [if_neg (show ¬(true = false) by simp)]
  rw [if_pos hne]
  rw [aget_aset_ne _ _ (fun hcon => hpq hcon.symm)]
  rw [hparent]

set_option maxRecDepth 40000 in
/-- **C9** counterexample: on a fresh file system (no `/d` directory),
`create_file("/d/f", ...)` fails and leaves the state unchanged, but
`write_file("/d/f", ...)` does not fail like `create_file` — it creates the
missing parent `/d` and returns `True`. -/
theorem write_file_creates_parent_cex :
    (create_file initState "/d/f" "hi").1 = false ∧
    (create_file initState "/d/f" "hi").2 = initState ∧
    (write_file initState "/d/f" "hi").1 = true ∧
    (aget "/d" (write_file initState "/d/f" "hi").2.directory_structure).isSome = true := by
  decide

/-- **C9** (amended): when the path does not exist as a file, `write_file`
delegates to `create_file` only after first creating a missing parent
directory: with `/d` absent (and the root present), `create_file("/d/f", c)`
returns `False` leaving the state unchanged, while `write_file("/d/f", c)`
creates `/d` and returns `True`. -/
theorem write_file_missing_parent (s : FSState) (c : String) (rd : DirEntry)
    (hroot : aget "/" s.directory_structure = some rd)
    (hd : aget "/d" s.directory_structure = none) :
    (create_file s "/d/f" c).1 = false ∧
    (create_file s "/d/f" c).2 = s ∧
    (write_file s "/d/f" c).1 = true ∧
    (∃ e, aget "/d" (write_file s "/d/f" c).2.directory_structure = some e) := by
  have hn1 : norm1 "/d/f" = "/d/f" := by decide
  have hn2 : norm1 "/d" = "/d" := by decide
  have hdir1 : dirname "/d/f" = "/d" := by decide
  have hdir2 : dirname "/d" = "/" := by decide
  have hcf : create_file s "/d/f" c = (false, s) := by
    unfold create_file
    rw [hn1]
    dsimp only
    rw [hdir1, hd]
  have hwf : (write_file s "/d/f" c).1 = true ∧
      (∃ e, aget "/d" (write_file s "/d/f" c).2.directory_structure = some e) := by
    unfold write_file invalidate_cache
    dsimp only
    simp only [hn1, hdir1]
    rw [show aget "/d" ({ s with read_cache := adel "/d/f" s.read_cache } : FSState).directory_structure = none from hd]
    simp only [Option.isNone_none, if_true]
    rw [create_directory_single { s with read_cache := adel "/d/f" s.read_cache } "/d" rd
      hn2 (by decide) hd (by rw [hdir2]; exact hroot) (by rw [hdir2]; decide)]
    dsimp only
    rw [save_metadata_ds]
    rw [aget_aset_ne _ _ (show dirname "/d" ≠ "/d" from by rw [hdir2]; decide)]
    rw [aget_aset_self]
    dsimp only
    rw [show aget (basename "/d/f") ([] : List (String × ChildRef)) = none from rfl]
    obtain ⟨bl, fb, hce⟩ := create_file_success_eq
      (save_metadata { { s with read_cache := adel "/d/f" s.read_cache } with directory_structure := aset (dirname "/d") { rd with contents := aset (basename "/d") (ChildRef.dir "/d") rd.contents } (aset "/d" ⟨({ s with read_cache := adel "/d/f" s.read_cache } : FSState).clock, ({ s with read_cache := adel "/d/f" s.read_cache } : FSState).clock, []⟩ ({ s with read_cache := adel "/d/f" s.read_cache } : FSState).directory_structure) })
      "/d/f" c ⟨s.clock, s.clock, []⟩
      (by rw [hn1, hdir1, save_metadata_ds]
          rw [aget_aset_ne _ _ (show dirname "/d" ≠ "/d" from by rw [hdir2]; decide)]
          exact aget_aset_self _ _ _)
      (by rw [hn1]; rfl)
    rw [hn1] at hce
    rw [hce]
    refine ⟨rfl, ?_⟩
    refine ⟨{ (⟨s.clock, s.clock, []⟩ : DirEntry) with contents := aset (basename "/d/f") (ChildRef.file (md5 "/d/f")) (⟨s.clock, s.clock, []⟩ : DirEntry).contents }, ?_⟩
    rw [save_metadata_ds]
    dsimp only
    rw [hdir1]
    exact aget_aset_self _ _ _
  exact ⟨by rw [hcf], by rw [hcf], hwf.1, hwf.2⟩

set_option maxRecDepth 40000 in
/-- Witness for `write_file_missing_parent` on a fresh file system. -/
theorem write_file_missing_parent_w :
    (aget "/" initState.directory_structure = some ⟨0, 0, []⟩ ∧
      aget "/d" initState.directory_structure = none) ∧
    ((create_file initState "/d/f" "hi").1 = false ∧
      (create_file initState "/d/f" "hi").2 = initState ∧
      (write_file initState "/d/f" "hi").1 = true ∧
      (∃ e, aget "/d" (write_file initState "/d/f" "hi").2.directory_structure = some e)) :=
  ⟨⟨by decide, by decide⟩,
    write_file_missing_parent initState "hi" ⟨0, 0, []⟩ (by decide) (by decide)⟩

/-! ## Swallowed persistence failures (C10) -/

theorem save_metadata_of_fault (s : FSState) (h : s.persistFault = true) :
    save_metadata s = s := by
  unfold save_metadata
  rw [h]
  simp

theorem delete_directory_empty_eq (s : FSState) (r : String) (d pe : DirEntry)
    (hr : norm1 r = r) (hne : r ≠ "/")
    (hrd : aget r s.directory_structure = some d)
    (hempty : d.contents = [])
    (hparent : aget (dirname r) s.directory_structure = some pe) :
    delete_directory s r false = (true, save_metadata
      { s with directory_structure := adel r (aset (dirname r) { pe with contents := adel (basename r) pe.contents } s.directory_structure) }) := by
  unfold delete_directory
  simp only [delete_directory_go]
  rw [hr]
  rw [if_neg hne]
  rw [hrd]
  dsimp only
  rw [if_neg (by simp [hempty])]
  rw [if_neg (by simp : ¬(false = true))]
  rw [hparent]
  dsimp only
  rw [if_neg (by simp : ¬(false = true))]

/-- **C10** (confirmed): with the persistence fault armed (an exception
raised inside `_save_metadata`, which the method catches and swallows), each
of the five mutating operations still returns `True` on its success path,
while the durable metadata store is left exactly as it was — the in-memory
mutation is never persisted. -/
theorem save_failure_swallowed (s : FSState) (hf : s.persistFault = true) :
    (∀ p c pd, aget (dirname (norm1 p)) s.directory_structure = some pd →
      aget (basename (norm1 p)) pd.contents = none →
      (create_file s p c).1 = true ∧ (create_file s p c).2.durable = s.durable) ∧
    (∀ p c pd fid fr, aget (dirname (norm1 p)) s.directory_structure = some pd →
      aget (basename (norm1 p)) pd.contents = some (ChildRef.file fid) →
      aget fid s.file_table = some fr →
      (write_file s p c).1 = true ∧ (write_file s p c).2.durable = s.durable) ∧
    (∀ p pd fid fr, aget (dirname (norm1 p)) s.directory_structure = some pd →
      aget (basename (norm1 p)) pd.contents = some (ChildRef.file fid) →
      aget fid s.file_table = some fr →
      (delete_file s p).1 = true ∧ (delete_file s p).2.durable = s.durable) ∧
    (∀ q pe, norm1 q = q → q ≠ "/" → aget q s.directory_structure = none →
      aget (dirname q) s.directory_structure = some pe → dirname q ≠ q →
      (create_directory s q).1 = true ∧ (create_directory s q).2.durable = s.durable) ∧
    (∀ r d pe, norm1 r = r → r ≠ "/" → aget r s.directory_structure = some d →
      d.contents = [] → aget (dirname r) s.directory_structure = some pe →
      (delete_directory s r false).1 = true ∧ (delete_directory s r false).2.durable = s.durable) := by
  refine ⟨?_, ?_, ?_, ?_, ?_⟩
  · intro p c pd hpd hname
    obtain ⟨bl, fb, heq⟩ := create_file_success_eq s p c pd hpd hname
    rw [heq]
    refine ⟨rfl, ?_⟩
    rw [save_metadata_of_fault _ (by exact hf)]
  · intro p c pd fid fr hpd hname hfid
    rw [write_file_existing_eq s p c pd fid fr hpd hname hfid]
    refine ⟨rfl, ?_⟩
    rw [save_metadata_of_fault _ (by rw [add_to_cache_fault]; exact hf)]
    rw [add_to_cache_durable]
  · intro p pd fid fr hpd hname hfid
    rw [delete_file_eq s p pd fid fr hpd hname hfid]
    refine ⟨rfl, ?_⟩
    rw [save_metadata_of_fault _ (by exact hf)]
  · intro q pe hq hne hqd hparent hpq
    rw [create_directory_single s q pe hq hne hqd hparent hpq]
    refine ⟨rfl, ?_⟩
    rw [save_metadata_of_fault _ (by exact hf)]
  · intro r d pe hr hne hrd hempty hparent
    rw [delete_directory_empty_eq s r d pe hr hne hrd hempty hparent]
    refine ⟨rfl, ?_⟩
    rw [save_metadata_of_fault _ (by exact hf)]

set_option maxRecDepth 40000 in
/-- Witness for `save_failure_swallowed` on `sFault` (fault armed; the state
holds files `/a`, `/b` and the empty directory `/e`, making every success
path of the five conjuncts realizable). -/
theorem save_failure_swallowed_w :
    sFault.persistFault = true ∧
    ((∀ p c pd, aget (dirname (norm1 p)) sFault.directory_structure = some pd →
      aget (basename (norm1 p)) pd.contents = none →
      (create_file sFault p c).1 = true ∧ (create_file sFault p c).2.durable = sFault.durable) ∧
    (∀ p c pd fid fr, aget (dirname (norm1 p)) sFault.directory_structure = some pd →
      aget (basename (norm1 p)) pd.contents = some (ChildRef.file fid) →
      aget fid sFault.file_table = some fr →
      (write_file sFault p c).1 = true ∧ (write_file sFault p c).2.durable = sFault.durable) ∧
    (∀ p pd fid fr, aget (dirname (norm1 p)) sFault.directory_structure = some pd →
      aget (basename (norm1 p)) pd.contents = some (ChildRef.file fid) →
      aget fid sFault.file_table = some fr →
      (delete_file sFault p).1 = true ∧ (delete_file sFault p).2.durable = sFault.durable) ∧
    (∀ q pe, norm1 q = q → q ≠ "/" → aget q sFault.directory_structure = none →
      aget (dirname q) sFault.directory_structure = some pe → dirname q ≠ q →
      (create_directory sFault q).1 = true ∧ (create_directory sFault q).2.durable = sFault.durable) ∧
    (∀ r d pe, norm1 r = r → r ≠ "/" → aget r sFault.directory_structure = some d →
      d.contents = [] → aget (dirname r) sFault.directory_structure = some pe →
      (delete_directory sFault r false).1 = true ∧ (delete_directory sFault r false).2.durable = sFault.durable)) :=
  ⟨by decide, save_failure_swallowed sFault (by decide)⟩
